import Mathlib

/-!
The probe-and-chain loop of tracentp.

A shallow embedding of `src/main.go`.

* The pure library functions the program calls (`net.ParseIP`, `net.IP.String`,
  `time.Duration.String`, and the fragment of `text/template` that
  `defaultTemplate` uses) are written out as executable functions on lists of
  characters.
* The capabilities that depend on the outside world (`net.ResolveIPAddr`,
  `ntp.QueryWithOptions`, writing to standard output) are fields of `Env`.
* `main` returns the ordered list of observable events of a run and the exit
  status.
-/

namespace Tracentp

/-! ## Package `net`: literal addresses -/

/-- Go's `net.IP`: a slice of bytes, 4 or 16 of them for a real address. -/
abbrev IP := List Nat

/-- The decimal loop of `netip.parseIPv4`: `fields` are the octets already
closed by a dot, `val` and `digLen` describe the octet being read, `prev` is the
previous character (`none` at index 0). It fails on a leading zero, a value
above 255, an empty octet, a fifth octet and any other character. -/
def parseIPv4Loop : List Char → Option Char → List Nat → Nat → Nat → Option (List Nat × Nat)
  | [], _, fields, val, _ => some (fields, val)
  | c :: cs, prev, fields, val, digLen =>
    if '0' ≤ c ∧ c ≤ '9' then
      if digLen = 1 ∧ val = 0 then none
      else if val * 10 + (c.toNat - 48) > 255 then none
      else parseIPv4Loop cs (some c) fields (val * 10 + (c.toNat - 48)) (digLen + 1)
    else if c = '.' then
      if prev = none ∨ cs = [] ∨ prev = some '.' then none
      else if fields.length = 3 then none
      else parseIPv4Loop cs (some c) (fields ++ [val]) 0 0
    else none

/-- Go's `netip.parseIPv4`: four decimal octets separated by dots. -/
def parseIPv4 (s : List Char) : Option (List Nat) :=
  match parseIPv4Loop s none [] 0 0 with
  | none => none
  | some (fields, val) => if fields.length < 3 then none else some (fields ++ [val])

/-- Value of a hexadecimal digit, `none` for any other character. -/
def hexVal (c : Char) : Option Nat :=
  if '0' ≤ c ∧ c ≤ '9' then some (c.toNat - 48)
  else if 'a' ≤ c ∧ c ≤ 'f' then some (c.toNat - 97 + 10)
  else if 'A' ≤ c ∧ c ≤ 'F' then some (c.toNat - 65 + 10)
  else none

/-- The inner loop of `netip.parseIPv6` reading one group: returns the number
of digits read, their value and the unread rest; fails on a fifth digit. -/
def parseHex : List Char → Nat → Nat → Option (Nat × Nat × List Char)
  | [], off, acc => some (off, acc, [])
  | c :: cs, off, acc =>
    match hexVal c with
    | none => some (off, acc, c :: cs)
    | some v =>
      if off > 3 then none
      else if acc * 16 + v > 65535 then none
      else parseHex cs (off + 1) (acc * 16 + v)

/-- The outer loop `for i < 16` of `netip.parseIPv6`; `ip` holds the `i` bytes
written so far and `ellipsis` the position of `::` when one was seen. Every
pass writes two bytes, so eight passes always suffice. The result is the unread
rest of the string, the bytes and the ellipsis position at loop exit. -/
def parseIPv6Loop : Nat → List Char → List Nat → Option Nat →
    Option (List Char × List Nat × Option Nat)
  | 0, s, ip, ellipsis => if ip.length < 16 then none else some (s, ip, ellipsis)
  | fuel + 1, s, ip, ellipsis =>
    if ¬ ip.length < 16 then some (s, ip, ellipsis)
    else
      match parseHex s 0 0 with
      | none => none
      | some (off, acc, rest) =>
        if off = 0 then none
        else if rest.head? = some '.' then
          if ellipsis = none ∧ ip.length ≠ 12 then none
          else if ip.length + 4 > 16 then none
          else
            match parseIPv4 s with
            | none => none
            | some ip4 => some ([], ip ++ ip4, ellipsis)
        else
          match rest with
          | [] => some ([], ip ++ [acc / 256, acc % 256], ellipsis)
          | c :: rest1 =>
            if c ≠ ':' then none
            else
              match rest1 with
              | [] => none
              | c1 :: rest2 =>
                if c1 = ':' then
                  if ellipsis.isSome then none
                  else if rest2 = [] then
                    some ([], ip ++ [acc / 256, acc % 256], some (ip.length + 2))
                  else
                    parseIPv6Loop fuel rest2 (ip ++ [acc / 256, acc % 256])
                      (some (ip.length + 2))
                else parseIPv6Loop fuel rest1 (ip ++ [acc / 256, acc % 256]) ellipsis

/-- Go's `netip.parseIPv6` as `net.ParseIP` uses it: a string with a zone
(`%`) is never accepted by `net.ParseIP`. -/
def parseIPv6 (s : List Char) : Option (List Nat) :=
  if '%' ∈ s then none
  else
    let start : List Char × Option Nat :=
      match s with
      | ':' :: ':' :: t => (t, some 0)
      | _ => (s, none)
    if start.2.isSome ∧ start.1 = [] then some (List.replicate 16 0)
    else
      match parseIPv6Loop 8 start.1 [] start.2 with
      | none => none
      | some (rest, ip, ellipsis) =>
        if rest ≠ [] then none
        else if ip.length < 16 then
          match ellipsis with
          | none => none
          | some e => some (ip.take e ++ List.replicate (16 - ip.length) 0 ++ ip.drop e)
        else if ellipsis.isSome then none
        else some ip

/-- Go's `net.ParseIP`: the first of `.`, `:` decides between the two parsers
(`netip.ParseAddr`); the result is always in the 16-byte form (`As16`), an IPv4
address behind the prefix `::ffff:`. `none` is Go's `nil`. -/
def ParseIP (s : String) : Option IP :=
  match s.data.find? (fun c => c == '.' || c == ':' || c == '%') with
  | some '.' => (parseIPv4 s.data).map (fun p4 => [0, 0, 0, 0, 0, 0, 0, 0, 0, 0, 255, 255] ++ p4)
  | some ':' => parseIPv6 s.data
  | _ => none

/-- Go's `IP.To4`. -/
def To4 (ip : IP) : Option (List Nat) :=
  if ip.length = 4 then some ip
  else if ip.length = 16 ∧ ip.take 10 = List.replicate 10 0 ∧
      (ip.drop 10).take 2 = [255, 255] then
    some (ip.drop 12)
  else none

/-- The character of a digit below 16, lower case. -/
def hexDigit (n : Nat) : Char :=
  if n < 10 then Char.ofNat (48 + n) else Char.ofNat (87 + n)

/-- Go's `netip.appendDecimal`: a byte in decimal without leading zeros. -/
def appendDecimal (x : Nat) : List Char :=
  (if x ≥ 100 then [hexDigit (x / 100)] else []) ++
  (if x ≥ 10 then [hexDigit (x / 10 % 10)] else []) ++ [hexDigit (x % 10)]

/-- Go's `netip.appendHex`: a 16-bit group in lower-case hexadecimal without
leading zeros. -/
def appendHex (x : Nat) : List Char :=
  (if x ≥ 4096 then [hexDigit (x / 4096)] else []) ++
  (if x ≥ 256 then [hexDigit (x / 256 % 16)] else []) ++
  (if x ≥ 16 then [hexDigit (x / 16 % 16)] else []) ++ [hexDigit (x % 16)]

/-- Pieces joined by a separator character. -/
def joinWith (sep : Char) : List (List Char) → List Char
  | [] => []
  | [x] => x
  | x :: y :: rest => x ++ sep :: joinWith sep (y :: rest)

/-- Go's `netip.Addr.string4`: dotted decimal. -/
def string4 (p4 : List Nat) : List Char :=
  joinWith '.' (p4.map appendDecimal)

/-- The eight 16-bit groups of a 16-byte address. -/
def groups : List Nat → List Nat
  | hi :: lo :: rest => (hi * 256 + lo) :: groups rest
  | _ => []

/-- The search of `netip.Addr.string6` for the first longest run of at least
two zero groups: `(zeroStart, zeroEnd)`, both 255 when there is none. -/
def longestZeroRun (g : List Nat) : Nat × Nat :=
  (List.range 8).foldl
    (fun (z : Nat × Nat) i =>
      let j := i + ((g.drop i).takeWhile (fun x => x == 0)).length
      if j - i ≥ 2 ∧ j - i > z.2 - z.1 then (i, j) else z)
    (255, 255)

/-- Go's `netip.Addr.string6`: groups in hexadecimal separated by colons, the
longest zero run written `::`. -/
def string6 (g : List Nat) : List Char :=
  let z := longestZeroRun g
  if z.1 = 255 then joinWith ':' (g.map appendHex)
  else joinWith ':' ((g.take z.1).map appendHex) ++ [':', ':'] ++
    joinWith ':' ((g.drop z.2).map appendHex)

/-- Go's `net.hexString`: two lower-case hexadecimal digits per byte. -/
def hexString (b : List Nat) : List Char :=
  b.flatMap (fun x => [hexDigit (x / 16 % 16), hexDigit (x % 16)])

/-- Go's `net.IP.String`. -/
def ipString (ip : IP) : String :=
  if ip.length = 0 then "<nil>"
  else if ip.length ≠ 4 ∧ ip.length ≠ 16 then String.mk ('?' :: hexString ip)
  else
    match To4 ip with
    | some p4 => String.mk (string4 p4)
    | none => String.mk (string6 (groups ip))

/-! ## Package `time`: printing a duration -/

/-- Go's `time.fmtFrac`: strips `prec` decimal digits off `v` and puts them,
without trailing zeros and behind a point, in front of `buf`. -/
def fmtFrac : Nat → Nat → Bool → List Char → List Char × Nat
  | 0, v, pr, buf => (if pr then '.' :: buf else buf, v)
  | prec + 1, v, pr, buf =>
    fmtFrac prec (v / 10) (pr || v % 10 != 0)
      (if pr || v % 10 != 0 then hexDigit (v % 10) :: buf else buf)

/-- Go's `time.fmtInt`: an unsigned integer in decimal. -/
def fmtInt (v : Nat) : List Char :=
  (Nat.repr v).data

/-- The unsigned part of Go's `time.Duration.format`, `u` in nanoseconds. -/
def formatUnsigned (u : Nat) : List Char :=
  if u < 1000000000 then
    if u = 0 then ['0', 's']
    else if u < 1000 then fmtInt u ++ ['n', 's']
    else if u < 1000000 then
      fmtInt (fmtFrac 3 u false ['µ', 's']).2 ++ (fmtFrac 3 u false ['µ', 's']).1
    else fmtInt (fmtFrac 6 u false ['m', 's']).2 ++ (fmtFrac 6 u false ['m', 's']).1
  else
    let secs := (fmtFrac 9 u false ['s']).2
    let tail := fmtInt (secs % 60) ++ (fmtFrac 9 u false ['s']).1
    if secs / 60 > 0 then
      if secs / 60 / 60 > 0 then
        fmtInt (secs / 60 / 60) ++ 'h' :: (fmtInt (secs / 60 % 60) ++ 'm' :: tail)
      else fmtInt (secs / 60 % 60) ++ 'm' :: tail
    else tail

/-- Go's `time.Duration.String`, the duration in nanoseconds. -/
def durationString (d : Int) : String :=
  String.mk (if d < 0 then '-' :: formatUnsigned d.natAbs else formatUnsigned d.natAbs)

/-! ## Data model -/

/-- The part of `ntp.Response` that the program reads. `ReferenceString` is the
result of the method of that name. `Validate` is the message of the error that
`Response.Validate` returns, the empty string standing for the nil error (the
errors of package `ntp` all carry a message). Durations are in nanoseconds. -/
structure Response where
  Stratum : Nat
  ClockOffset : Int
  RTT : Int
  RootDistance : Int
  ReferenceString : String
  Validate : String
  deriving DecidableEq, Repr

/-- The struct `PrettyRsp` of `main.go`: a reply, the target it came from and
the sequence number. -/
structure PrettyRsp where
  Response : Response
  Address : String
  Seq : Int
  deriving DecidableEq, Repr

/-- The struct `args` of `main.go`. `Timeout` is in nanoseconds. -/
structure args where
  Address : String
  Timeout : Int := 3000000000
  Port : Int := 123
  Count : Int := 16
  IPv6 : Bool := false
  deriving DecidableEq, Repr

/-! ## Package `text/template`: the fragment `defaultTemplate` uses -/

/-- The constant `defaultTemplate` of `main.go`. -/
def defaultTemplate : String :=
  "\x7b\x7bif .Validate\x7d\x7d\x7b\x7b.Validate\x7d\x7d\x7b\x7belse\x7d\x7dOK\x7b\x7bend\x7d\x7d from \x7b\x7b.Address\x7d\x7d:" ++
  "seq=\x7b\x7b.Seq\x7d\x7d stratum=\x7b\x7b.Stratum\x7d\x7d " ++
  "offset=\x7b\x7b.ClockOffset\x7d\x7d distance=\x7b\x7b.RootDistance\x7d\x7d RTT=\x7b\x7b.RTT\x7d\x7d ref=\x7b\x7b.ReferenceString\x7d\x7d\n"

/-- The constant `version` of `main.go`. -/
def version : String := "dev"

/-- The method `args.Version`. -/
def args.Version (_ : args) : String := version

/-- One element of a parsed template: literal text, the action that prints a
field, and the three actions of a conditional on a field. -/
inductive Item where
  | text (s : String)
  | field (name : String)
  | ifField (name : String)
  | elseAct
  | endAct
  deriving DecidableEq, Repr

/-- The words of an action, split at blanks. -/
def words : List Char → List Char → List (List Char)
  | [], cur => if cur = [] then [] else [cur.reverse]
  | c :: cs, cur =>
    if c = ' ' then (if cur = [] then words cs [] else cur.reverse :: words cs [])
    else words cs (c :: cur)

/-- A field reference `.Name`, with a name of letters, digits and underscores. -/
def fieldName : List Char → Option String
  | '.' :: name =>
    if name ≠ [] ∧ name.all (fun c => c.isAlphanum || c == '_') then some (String.mk name)
    else none
  | _ => none

/-- The action between a pair of delimiters; `none` for what the fragment does
not cover. -/
def parseAction (act : List Char) : Option Item :=
  match words act [] with
  | [['e', 'n', 'd']] => some Item.endAct
  | [['e', 'l', 's', 'e']] => some Item.elseAct
  | [['i', 'f'], ref] => (fieldName ref).map Item.ifField
  | [ref] => (fieldName ref).map Item.field
  | _ => none

/-- The literal text collected so far, as an item (none when it is empty). -/
def flushText (acc : List Char) : List Item :=
  if acc = [] then [] else [Item.text (String.mk acc.reverse)]

/-- The lexer: text up to the next left delimiter, then an action up to the
right delimiter. `inAction` tells on which side of a left delimiter we are and
`acc` holds the characters read since the last delimiter, newest first. -/
def lexItems : List Char → Bool → List Char → Except String (List Item)
  | [], false, acc => .ok (flushText acc)
  | [], true, _ => .error "unclosed action"
  | '\x7b' :: '\x7b' :: rest, false, acc =>
    match lexItems rest true [] with
    | .ok items => .ok (flushText acc ++ items)
    | .error e => .error e
  | '\x7d' :: '\x7d' :: rest, true, acc =>
    match parseAction acc.reverse with
    | none => .error "unexpected action"
    | some item =>
      match lexItems rest false [] with
      | .ok items => .ok (item :: items)
      | .error e => .error e
  | c :: rest, inAction, acc => lexItems rest inAction (c :: acc)

/-- Whether conditionals are properly nested; `openIfs` lists, innermost first,
for each open conditional whether its else branch has started. -/
def wellNested : List Item → List Bool → Bool
  | [], openIfs => openIfs.isEmpty
  | Item.ifField _ :: rest, openIfs => wellNested rest (false :: openIfs)
  | Item.elseAct :: rest, false :: openIfs => wellNested rest (true :: openIfs)
  | Item.elseAct :: _, _ => false
  | Item.endAct :: rest, _ :: openIfs => wellNested rest openIfs
  | Item.endAct :: _, [] => false
  | _ :: rest, openIfs => wellNested rest openIfs

/-- Go's `template.Parse` on the fragment. -/
def Parse (s : String) : Except String (List Item) :=
  match lexItems s.data false [] with
  | .error e => .error e
  | .ok items => if wellNested items [] then .ok items else .error "unexpected end or else"

/-- The value of a field, by its Go type. -/
inductive Value where
  | str (s : String)
  | int (n : Int)
  | dur (d : Int)
  | err (msg : String)
  deriving DecidableEq, Repr

/-- The fields and methods of `*PrettyRsp` that the model exposes to a
template (those that `defaultTemplate` names); `none` is a field the template
engine cannot evaluate. -/
def PrettyRsp.lookup (p : PrettyRsp) (name : String) : Option Value :=
  if name = "Validate" then some (Value.err p.Response.Validate)
  else if name = "Address" then some (Value.str p.Address)
  else if name = "Seq" then some (Value.int p.Seq)
  else if name = "Stratum" then some (Value.int p.Response.Stratum)
  else if name = "ClockOffset" then some (Value.dur p.Response.ClockOffset)
  else if name = "RootDistance" then some (Value.dur p.Response.RootDistance)
  else if name = "RTT" then some (Value.dur p.Response.RTT)
  else if name = "ReferenceString" then some (Value.str p.Response.ReferenceString)
  else none

/-- Truth of a value in a conditional: a non-empty string, a non-zero number, a
non-nil error. -/
def Value.truth : Value → Bool
  | Value.str s => s != ""
  | Value.int n => n != 0
  | Value.dur d => d != 0
  | Value.err msg => msg != ""

/-- What printing a value writes. -/
def Value.print : Value → String
  | Value.str s => s
  | Value.int n => toString n
  | Value.dur d => durationString d
  | Value.err msg => if msg = "" then "<nil>" else msg

/-- Execution of the items; `frames` holds, innermost first, for each open
conditional whether its current branch is the one to run. Output is written
only where every open conditional runs. -/
def execItems (p : PrettyRsp) : List Item → List Bool → Except String String
  | [], _ => .ok ""
  | Item.text s :: rest, frames =>
    match execItems p rest frames with
    | .ok out => .ok (if frames.all id then s ++ out else out)
    | .error e => .error e
  | Item.field name :: rest, frames =>
    if frames.all id then
      match p.lookup name with
      | none => .error ("can't evaluate field " ++ name)
      | some v =>
        match execItems p rest frames with
        | .ok out => .ok (v.print ++ out)
        | .error e => .error e
    else execItems p rest frames
  | Item.ifField name :: rest, frames =>
    if frames.all id then
      match p.lookup name with
      | none => .error ("can't evaluate field " ++ name)
      | some v => execItems p rest (v.truth :: frames)
    else execItems p rest (false :: frames)
  | Item.elseAct :: rest, frames =>
    match frames with
    | [] => .error "unexpected else"
    | b :: outer => execItems p rest ((!b) :: outer)
  | Item.endAct :: rest, frames =>
    match frames with
    | [] => .error "unexpected end"
    | _ :: outer => execItems p rest outer

/-- The text that executing a parsed template on a record produces. -/
def render (tmpl : List Item) (p : PrettyRsp) : Except String String :=
  execItems p tmpl []

/-! ## The outside world and the observable events -/

/-- The capabilities the program gets from outside.
* `ResolveIPAddr network address` is `net.ResolveIPAddr`.
* `QueryWithOptions i addr timeout` is the outcome of the call of
  `ntp.QueryWithOptions` made in iteration `i` (counted from 0) of the loop;
  the outcome may depend on the iteration, since the network changes over time.
* `stdoutErr i` is the error, if any, of writing to standard output during
  iteration `i`. -/
structure Env where
  ResolveIPAddr : String → String → Except String IP
  QueryWithOptions : Nat → String → Int → Except String Response
  stdoutErr : Nat → Option String

/-- What a run does, in order: a name lookup, a query, a record written through
the template (with the text written), and a diagnostic line of `fmt.Printf`. -/
inductive Event where
  | lookup (network : String) (address : String)
  | query (addr : String) (timeout : Int)
  | record (p : PrettyRsp) (line : String)
  | diag (line : String)
  deriving DecidableEq, Repr

/-- The records of a trace, in order. -/
def records : List Event → List PrettyRsp
  | [] => []
  | Event.record p _ :: rest => p :: records rest
  | _ :: rest => records rest

/-- The diagnostic lines of a trace, in order. -/
def diags : List Event → List String
  | [] => []
  | Event.diag line :: rest => line :: diags rest
  | _ :: rest => diags rest

/-- The addresses queried in a trace, in order. -/
def queries : List Event → List String
  | [] => []
  | Event.query addr _ :: rest => addr :: queries rest
  | _ :: rest => queries rest

/-- The name lookups of a trace, in order. -/
def lookups : List Event → List (String × String)
  | [] => []
  | Event.lookup network address :: rest => (network, address) :: lookups rest
  | _ :: rest => lookups rest

/-- The text a trace leaves on standard output: records and diagnostics go to
the same stream. -/
def stdout : List Event → String
  | [] => ""
  | Event.record _ line :: rest => line ++ stdout rest
  | Event.diag line :: rest => line ++ stdout rest
  | _ :: rest => stdout rest

/-! ## `main.go` -/

/-- The function `resolveToIP` of `main.go`, with the lookups it performs. -/
def resolveToIP (env : Env) (s : String) (ipv6 : Bool) : List Event × Except String IP :=
  match ParseIP s with
  | some ip => ([], .ok ip)
  | none =>
    match env.ResolveIPAddr (if ipv6 then "ip6" else "ip4") s with
    | .error err => ([Event.lookup (if ipv6 then "ip6" else "ip4") s], .error err)
    | .ok ip => ([Event.lookup (if ipv6 then "ip6" else "ip4") s], .ok ip)

/-- The call `tmpl.Execute(os.Stdout, p)` of iteration `i`: the template is
rendered and the text written; it fails when the rendering or the write fails. -/
def Execute (env : Env) (i : Nat) (tmpl : List Item) (p : PrettyRsp) : Except String String :=
  match render tmpl p with
  | .error err => .error err
  | .ok line =>
    match env.stdoutErr i with
    | some err => .error err
    | none => .ok line

/-- The loop `for i := 0; i < args.Count; i++` of `main`, from the state in
which `remaining = Count - i` iterations are left, the loop variable is `i` and
the variable `addr` holds the current target. -/
def probeLoop (env : Env) (timeout : Int) (tmpl : List Item) : Nat → Nat → String → List Event
  | 0, _, _ => []
  | remaining + 1, i, addr =>
    Event.query addr timeout ::
      match env.QueryWithOptions i addr timeout with
      | .error err => [Event.diag ("error from " ++ addr ++ ":" ++ err ++ "\n")]
      | .ok rsp =>
        match Execute env i tmpl { Response := rsp, Address := addr, Seq := i + 1 } with
        | .error err => [Event.diag ("error from " ++ addr ++ ":" ++ err ++ "\n")]
        | .ok line =>
          Event.record { Response := rsp, Address := addr, Seq := i + 1 } line ::
            if rsp.Stratum = 1 then []
            else if ParseIP rsp.ReferenceString = none then
              [Event.diag ("error from " ++ rsp.ReferenceString ++ ":invalid ip address\n")]
            else probeLoop env timeout tmpl remaining (i + 1) rsp.ReferenceString

/-- The value of `addr` when the loop of `main` starts (lines 66 to 70). -/
def startAddr (a : args) (raddr : IP) : String :=
  if a.Port ≠ 123 then a.Address ++ ":" ++ toString a.Port else ipString raddr

/-- The function `main` of `main.go`: the events of the run and the exit
status (1 after a failed resolution, 2 for the panic of `template.Must`). -/
def main (env : Env) (a : args) : List Event × Nat :=
  match resolveToIP env a.Address a.IPv6 with
  | (ev, .error err) =>
    (ev ++ [Event.diag ("error from " ++ a.Address ++ ":" ++ err ++ "\n")], 1)
  | (ev, .ok raddr) =>
    match Parse defaultTemplate with
    | .error _ => (ev, 2)
    | .ok tmpl => (ev ++ probeLoop env a.Timeout tmpl a.Count.toNat 0 (startAddr a raddr), 0)

/-! ## Vocabulary of the statements -/

/-- The items that `Parse` yields on `defaultTemplate` (`Parse_defaultTemplate`). -/
def parsedTemplate : List Item :=
  [Item.ifField "Validate", Item.field "Validate", Item.elseAct, Item.text "OK",
    Item.endAct, Item.text " from ", Item.field "Address", Item.text ":seq=",
    Item.field "Seq", Item.text " stratum=", Item.field "Stratum", Item.text " offset=",
    Item.field "ClockOffset", Item.text " distance=", Item.field "RootDistance",
    Item.text " RTT=", Item.field "RTT", Item.text " ref=", Item.field "ReferenceString",
    Item.text "\n"]

/-- `Chain env t tmpl i addr rs`: from the state in which the loop variable is
`i` and the target is `addr`, the next `rs.length` iterations get the replies
`rs` in this order, write each of them successfully, and redirect: no reply has
stratum 1 and every reference string is a literal IP. -/
def Chain (env : Env) (t : Int) (tmpl : List Item) : Nat → String → List Response → Prop
  | _, _, [] => True
  | i, addr, r :: rs =>
    env.QueryWithOptions i addr t = .ok r ∧
    (∃ line, Execute env i tmpl { Response := r, Address := addr, Seq := i + 1 } = .ok line) ∧
    r.Stratum ≠ 1 ∧ ParseIP r.ReferenceString ≠ none ∧
    Chain env t tmpl (i + 1) r.ReferenceString rs

/-- The target after a chain of redirecting replies. -/
def chainTarget (addr : String) : List Response → String
  | [] => addr
  | r :: rs => chainTarget r.ReferenceString rs

/-- The records of a chain of redirecting replies that starts with loop
variable `i` and target `addr`. -/
def chainRecords : Nat → String → List Response → List PrettyRsp
  | _, _, [] => []
  | i, addr, r :: rs =>
    { Response := r, Address := addr, Seq := i + 1 } :: chainRecords (i + 1) r.ReferenceString rs

/-! ## Concrete runs -/

/-- A reply with the given stratum and reference string. -/
def reply (stratum : Nat) (ref : String) : Response :=
  { Stratum := stratum, ClockOffset := 1000000, RTT := 5000000, RootDistance := 2000000,
    ReferenceString := ref, Validate := "" }

/-- A world in which `pool.ntp.org` resolves to 162.159.200.1 (IPv4) and to
2606:4700:f1::1 (IPv6), the first two queries are answered by stratum-3 and
stratum-2 servers that name 10.0.0.2 and 10.0.0.1 as their sources and the third
query times out. -/
def timeoutEnv : Env where
  ResolveIPAddr := fun network address =>
    if address = "pool.ntp.org" then
      (if network = "ip4" then .ok [162, 159, 200, 1]
       else .ok [38, 6, 71, 0, 0, 241, 0, 0, 0, 0, 0, 0, 0, 0, 0, 1])
    else .error "no such host"
  QueryWithOptions := fun i _ _ =>
    if i = 0 then .ok (reply 3 "10.0.0.2")
    else if i = 1 then .ok (reply 2 "10.0.0.1")
    else .error "i/o timeout"
  stdoutErr := fun _ => none

/-- A world like `timeoutEnv` in which every query is answered by a stratum-2
server that names 10.0.0.1 as its source. -/
def steadyEnv : Env where
  ResolveIPAddr := timeoutEnv.ResolveIPAddr
  QueryWithOptions := fun _ _ _ => .ok (reply 2 "10.0.0.1")
  stdoutErr := fun _ => none

/-- A world like `timeoutEnv` in which the second query reaches a stratum-1
server whose reference string is `.GPS.`. -/
def rootEnv : Env where
  ResolveIPAddr := timeoutEnv.ResolveIPAddr
  QueryWithOptions := fun i _ _ =>
    if i = 0 then .ok (reply 2 "10.0.0.1") else .ok (reply 1 ".GPS.")
  stdoutErr := fun _ => none

/-- A world like `timeoutEnv` in which every query is answered by a stratum-2
server whose reference string is the name `upstream.example.net`. -/
def namedRefEnv : Env where
  ResolveIPAddr := timeoutEnv.ResolveIPAddr
  QueryWithOptions := fun _ _ _ => .ok (reply 2 "upstream.example.net")
  stdoutErr := fun _ => none

/-- The command line `tracentp -c 3 pool.ntp.org`. -/
def threeArgs : args := { Address := "pool.ntp.org", Count := 3 }

/-- The command line `tracentp -c 5 pool.ntp.org`. -/
def fiveArgs : args := { Address := "pool.ntp.org", Count := 5 }

/-- The command line `tracentp -c 2 -p 456 pool.ntp.org`. -/
def portArgs : args := { Address := "pool.ntp.org", Port := 456, Count := 2 }

/-- The command line `tracentp -c 1 pool.ntp.org`. -/
def pingArgs : args := { Address := "pool.ntp.org", Count := 1 }

/-- The command line `tracentp -c 1 -p 456 -6 pool.ntp.org`. -/
def sixArgs : args := { Address := "pool.ntp.org", Port := 456, Count := 1, IPv6 := true }

/-- The text that `parseIPv4Loop` has read when it holds the closed octets
`fields` and an open octet of `digLen` digits and value `val`. -/
def dottedText (fields : List Nat) (val digLen : Nat) : List Char :=
  fields.flatMap (fun f => appendDecimal f ++ ['.']) ++
    (if digLen = 0 then [] else appendDecimal val)

/-- The bytes of a list of 16-bit groups, high byte first. -/
def groupBytes (gs : List Nat) : List Nat :=
  gs.flatMap (fun x => [x / 256, x % 256])

/-- The first step of `parseIPv6`: a leading ellipsis is taken off and its
position noted. -/
def ellipsisStart (s : List Char) : List Char × Option Nat :=
  match s with
  | ':' :: ':' :: t => (t, some 0)
  | _ => (s, none)

/-- The last step of `parseIPv6` on the state the outer loop leaves: the whole
text must be read, and a short address is filled with zeros at the ellipsis. -/
def ellipsisFill (r : Option (List Char × List Nat × Option Nat)) : Option (List Nat) :=
  match r with
  | none => none
  | some (rest, ip, ellipsis) =>
    if rest ≠ [] then none
    else if ip.length < 16 then
      match ellipsis with
      | none => none
      | some e => some (ip.take e ++ List.replicate (16 - ip.length) 0 ++ ip.drop e)
    else if ellipsis.isSome then none
    else some ip

/-! ## The template -/

/-- Parsing `defaultTemplate` succeeds (`template.Must` does not panic). -/
theorem Parse_defaultTemplate : Parse defaultTemplate = .ok parsedTemplate := by
  rfl

/-- The text of a record under the default template. -/
theorem render_default (p : PrettyRsp) :
    render parsedTemplate p =
    .ok ((if p.Response.Validate = "" then "OK" else p.Response.Validate) ++ (" from " ++
      (p.Address ++ (":seq=" ++ (toString p.Seq ++ (" stratum=" ++
      (toString (p.Response.Stratum : Int) ++ (" offset=" ++
      (durationString p.Response.ClockOffset ++ (" distance=" ++
      (durationString p.Response.RootDistance ++ (" RTT=" ++
      (durationString p.Response.RTT ++ (" ref=" ++
      (p.Response.ReferenceString ++ "\n"))))))))))))))) := by
  by_cases h : p.Response.Validate = ""
  · simp [render, parsedTemplate, execItems, PrettyRsp.lookup, Value.truth, Value.print, h]
  · simp [render, parsedTemplate, execItems, PrettyRsp.lookup, Value.truth, Value.print, h]

/-! ## Traces -/

/-- The records of two traces put together. -/
theorem records_append (xs ys : List Event) : records (xs ++ ys) = records xs ++ records ys := by
  induction xs with
  | nil => rfl
  | cons e xs ih => cases e <;> simp [records, ih]

/-- The diagnostics of two traces put together. -/
theorem diags_append (xs ys : List Event) : diags (xs ++ ys) = diags xs ++ diags ys := by
  induction xs with
  | nil => rfl
  | cons e xs ih => cases e <;> simp [diags, ih]

/-- The queries of two traces put together. -/
theorem queries_append (xs ys : List Event) : queries (xs ++ ys) = queries xs ++ queries ys := by
  induction xs with
  | nil => rfl
  | cons e xs ih => cases e <;> simp [queries, ih]

/-- The lookups of two traces put together. -/
theorem lookups_append (xs ys : List Event) : lookups (xs ++ ys) = lookups xs ++ lookups ys := by
  induction xs with
  | nil => rfl
  | cons e xs ih => cases e <;> simp [lookups, ih]

/-- The events of `resolveToIP` are at most one lookup. -/
theorem resolveToIP_events (env : Env) (s : String) (ipv6 : Bool) (ev : List Event)
    (r : Except String IP) (h : resolveToIP env s ipv6 = (ev, r)) :
    ev = [] ∨ ∃ network, ev = [Event.lookup network s] := by
  unfold resolveToIP at h
  split at h
  · simp only [Prod.mk.injEq] at h
    exact Or.inl h.1.symm
  · split at h
    · simp only [Prod.mk.injEq] at h
      exact Or.inr ⟨_, h.1.symm⟩
    · simp only [Prod.mk.injEq] at h
      exact Or.inr ⟨_, h.1.symm⟩

/-- The trace of `main` after a successful resolution. -/
theorem main_ok (env : Env) (a : args) (ev : List Event) (raddr : IP)
    (h : resolveToIP env a.Address a.IPv6 = (ev, .ok raddr)) :
    main env a =
      (ev ++ probeLoop env a.Timeout parsedTemplate a.Count.toNat 0 (startAddr a raddr), 0) := by
  unfold main
  rw [h]
  simp only [Parse_defaultTemplate]

/-- The trace of `main` after a failed resolution. -/
theorem main_error (env : Env) (a : args) (ev : List Event) (err : String)
    (h : resolveToIP env a.Address a.IPv6 = (ev, .error err)) :
    main env a = (ev ++ [Event.diag ("error from " ++ a.Address ++ ":" ++ err ++ "\n")], 1) := by
  unfold main
  rw [h]

/-! ## The loop -/

/-- One iteration of the loop, unfolded. -/
theorem probeLoop_succ (env : Env) (t : Int) (tmpl : List Item) (n i : Nat) (addr : String) :
    probeLoop env t tmpl (n + 1) i addr =
      Event.query addr t ::
        match env.QueryWithOptions i addr t with
        | .error err => [Event.diag ("error from " ++ addr ++ ":" ++ err ++ "\n")]
        | .ok rsp =>
          match Execute env i tmpl { Response := rsp, Address := addr, Seq := i + 1 } with
          | .error err => [Event.diag ("error from " ++ addr ++ ":" ++ err ++ "\n")]
          | .ok line =>
            Event.record { Response := rsp, Address := addr, Seq := i + 1 } line ::
              if rsp.Stratum = 1 then []
              else if ParseIP rsp.ReferenceString = none then
                [Event.diag ("error from " ++ rsp.ReferenceString ++ ":invalid ip address\n")]
              else probeLoop env t tmpl n (i + 1) rsp.ReferenceString := rfl

/-- One iteration whose query and formatting succeed. -/
theorem probeLoop_step (env : Env) (t : Int) (tmpl : List Item) (n i : Nat) (addr : String)
    (rsp : Response) (line : String)
    (hq : env.QueryWithOptions i addr t = .ok rsp)
    (hx : Execute env i tmpl { Response := rsp, Address := addr, Seq := i + 1 } = .ok line) :
    probeLoop env t tmpl (n + 1) i addr =
      Event.query addr t :: Event.record { Response := rsp, Address := addr, Seq := i + 1 } line ::
        if rsp.Stratum = 1 then []
        else if ParseIP rsp.ReferenceString = none then
          [Event.diag ("error from " ++ rsp.ReferenceString ++ ":invalid ip address\n")]
        else probeLoop env t tmpl n (i + 1) rsp.ReferenceString := by
  rw [probeLoop_succ, hq]
  simp only [hx]

/-- Every record of a trace of the loop was written by an iteration of the
loop, and what follows the record in the trace is what that iteration and the
later ones did. -/
theorem record_split (env : Env) (t : Int) (tmpl : List Item) :
    ∀ (n i : Nat) (addr : String) (pre post : List Event) (p : PrettyRsp) (line : String),
      probeLoop env t tmpl n i addr = pre ++ Event.record p line :: post →
      ∃ (m j : Nat) (a : String),
        j + (m + 1) = i + n ∧
        env.QueryWithOptions j a t = .ok p.Response ∧
        Execute env j tmpl p = .ok line ∧
        p.Address = a ∧ p.Seq = j + 1 ∧
        probeLoop env t tmpl (m + 1) j a = Event.query a t :: Event.record p line :: post := by
  intro n
  induction n with
  | zero =>
    intro i addr pre post p line h
    cases pre <;> simp [probeLoop] at h
  | succ n ih =>
    intro i addr pre post p line h
    rw [probeLoop_succ] at h
    cases pre with
    | nil => simp at h
    | cons e pre1 =>
      simp only [List.cons_append, List.cons.injEq] at h
      obtain ⟨-, h⟩ := h
      cases hq : env.QueryWithOptions i addr t with
      | error err =>
        rw [hq] at h
        cases pre1 with
        | nil => simp at h
        | cons e2 pre2 => cases pre2 <;> simp at h
      | ok rsp =>
        rw [hq] at h
        cases hx : Execute env i tmpl { Response := rsp, Address := addr, Seq := i + 1 } with
        | error err =>
          simp only [hx] at h
          cases pre1 with
          | nil => simp at h
          | cons e2 pre2 => cases pre2 <;> simp at h
        | ok line0 =>
          simp only [hx] at h
          cases pre1 with
          | nil =>
            simp only [List.nil_append, List.cons.injEq, Event.record.injEq] at h
            obtain ⟨⟨hp, hl⟩, hpost⟩ := h
            subst hp hl
            refine ⟨n, i, addr, rfl, hq, hx, rfl, rfl, ?_⟩
            rw [probeLoop_step env t tmpl n i addr rsp line0 hq hx, hpost]
          | cons e2 pre2 =>
            simp only [List.cons_append, List.cons.injEq] at h
            obtain ⟨-, h⟩ := h
            by_cases h1 : rsp.Stratum = 1
            · rw [if_pos h1] at h
              cases pre2 <;> simp at h
            · rw [if_neg h1] at h
              by_cases h2 : ParseIP rsp.ReferenceString = none
              · rw [if_pos h2] at h
                cases pre2 with
                | nil => simp at h
                | cons e3 pre3 => cases pre3 <;> simp at h
              · rw [if_neg h2] at h
                obtain ⟨m, j, a, hj, r1, r2, r3, r4, r5⟩ := ih (i + 1) _ pre2 post p line h
                exact ⟨m, j, a, by omega, r1, r2, r3, r4, r5⟩

/-- Every record of a trace of `main` was written by an iteration of the loop
of `main`. -/
theorem main_record_split (env : Env) (a : args) (pre post : List Event) (p : PrettyRsp)
    (line : String) (h : (main env a).1 = pre ++ Event.record p line :: post) :
    ∃ (m j : Nat) (tgt : String),
      j + (m + 1) = a.Count.toNat ∧
      env.QueryWithOptions j tgt a.Timeout = .ok p.Response ∧
      Execute env j parsedTemplate p = .ok line ∧
      p.Address = tgt ∧ p.Seq = j + 1 ∧
      probeLoop env a.Timeout parsedTemplate (m + 1) j tgt =
        Event.query tgt a.Timeout :: Event.record p line :: post := by
  cases hres : resolveToIP env a.Address a.IPv6 with
  | mk ev r =>
    cases r with
    | error err =>
      rw [main_error env a ev err hres] at h
      rcases resolveToIP_events env _ _ ev _ hres with hev | ⟨network, hev⟩
      · subst hev
        cases pre with
        | nil => simp at h
        | cons e pre1 => cases pre1 <;> simp at h
      · subst hev
        cases pre with
        | nil => simp at h
        | cons e pre1 =>
          cases pre1 with
          | nil => simp at h
          | cons e1 pre2 => cases pre2 <;> simp at h
    | ok raddr =>
      rw [main_ok env a ev raddr hres] at h
      have key : ∃ pre1, probeLoop env a.Timeout parsedTemplate a.Count.toNat 0
          (startAddr a raddr) = pre1 ++ Event.record p line :: post := by
        rcases resolveToIP_events env _ _ ev _ hres with hev | ⟨network, hev⟩
        · subst hev
          exact ⟨pre, h⟩
        · subst hev
          cases pre with
          | nil => simp at h
          | cons e pre1 =>
            simp only [List.cons_append, List.nil_append, List.cons.injEq] at h
            exact ⟨pre1, h.2⟩
      obtain ⟨pre1, hk⟩ := key
      obtain ⟨m, j, tgt, hj, r1, r2, r3, r4, r5⟩ :=
        record_split env a.Timeout parsedTemplate _ 0 _ pre1 post p line hk
      exact ⟨m, j, tgt, by omega, r1, r2, r3, r4, r5⟩

/-- A chain of redirecting replies: the loop runs through it and goes on from
the state it leads to. -/
theorem chain_trace (env : Env) (t : Int) (tmpl : List Item) :
    ∀ (rs : List Response) (i : Nat) (addr : String) (n : Nat),
      Chain env t tmpl i addr rs →
      ∃ tr : List Event,
        probeLoop env t tmpl (rs.length + n) i addr =
          tr ++ probeLoop env t tmpl n (i + rs.length) (chainTarget addr rs) ∧
        records tr = chainRecords i addr rs ∧ diags tr = [] ∧ lookups tr = [] ∧
        (queries tr).length = rs.length := by
  intro rs
  induction rs with
  | nil =>
    intro i addr n _
    exact ⟨[], by simp [chainTarget], rfl, rfl, rfl, rfl⟩
  | cons r rs ih =>
    intro i addr n h
    obtain ⟨hq, ⟨line, hx⟩, h1, h2, hrest⟩ := h
    obtain ⟨tr, htr, hrec, hdiag, hlook, hquer⟩ := ih (i + 1) r.ReferenceString n hrest
    refine ⟨Event.query addr t ::
      Event.record { Response := r, Address := addr, Seq := i + 1 } line :: tr, ?_, ?_, ?_, ?_, ?_⟩
    · have hlen : (r :: rs).length + n = (rs.length + n) + 1 := by simp; omega
      rw [hlen, probeLoop_step env t tmpl _ i addr r line hq hx, if_neg h1, if_neg h2, htr]
      have hi : i + 1 + rs.length = i + (r :: rs).length := by simp; omega
      rw [hi]
      rfl
    · simp [records, chainRecords, hrec]
    · simp [diags, hdiag]
    · simp [lookups, hlook]
    · simp [queries, hquer]

/-- The sequence numbers of the records of a chain. -/
theorem chainRecords_seq : ∀ (rs : List Response) (i : Nat) (addr : String),
    (chainRecords i addr rs).map (fun p => p.Seq) =
      (List.range rs.length).map (fun k => ((i + k + 1 : Nat) : Int)) := by
  intro rs
  induction rs with
  | nil => intro i addr; rfl
  | cons r rs ih =>
    intro i addr
    rw [chainRecords, List.map_cons, ih (i + 1) r.ReferenceString, List.length_cons,
      List.range_succ_eq_map, List.map_cons, List.map_map]
    simp only [List.cons.injEq]
    refine ⟨by simp, ?_⟩
    apply List.map_congr_left
    intro k _
    simp only [Function.comp]
    congr 1
    omega

/-- A chain has one record for each reply. -/
theorem chainRecords_length : ∀ (rs : List Response) (i : Nat) (addr : String),
    (chainRecords i addr rs).length = rs.length := by
  intro rs
  induction rs with
  | nil => intro i addr; rfl
  | cons r rs ih => intro i addr; simp [chainRecords, ih]

/-- The records of a chain carry its replies, in order. -/
theorem chainRecords_response : ∀ (rs : List Response) (i : Nat) (addr : String),
    (chainRecords i addr rs).map (fun p => p.Response) = rs := by
  intro rs
  induction rs with
  | nil => intro i addr; rfl
  | cons r rs ih => intro i addr; simp [chainRecords, ih]

/-! ## Dotted quads -/

/-- The code points of the decimal digits. -/
theorem digit_toNat (c : Char) (h : '0' ≤ c ∧ c ≤ '9') : 48 ≤ c.toNat ∧ c.toNat ≤ 57 := by
  obtain ⟨h1, h2⟩ := h
  rw [Char.le_def] at h1 h2
  constructor
  · exact h1
  · exact h2

/-- A decimal digit is the character of its value. -/
theorem hexDigit_digit (c : Char) (h : '0' ≤ c ∧ c ≤ '9') : hexDigit (c.toNat - 48) = c := by
  obtain ⟨h1, h2⟩ := digit_toNat c h
  unfold hexDigit
  rw [if_pos (by omega)]
  have : 48 + (c.toNat - 48) = c.toNat := by omega
  rw [this]
  exact Char.ofNat_toNat c

/-- A value below ten is written with one digit. -/
theorem appendDecimal_small (d : Nat) (h : d ≤ 9) : appendDecimal d = [hexDigit d] := by
  unfold appendDecimal
  rw [if_neg (by omega), if_neg (by omega)]
  have : d % 10 = d := by omega
  rw [this]
  rfl

/-- One more digit behind a value that does not start with zero. -/
theorem appendDecimal_snoc (v d : Nat) (hv : 1 ≤ v) (hd : d ≤ 9) (h : v * 10 + d ≤ 255) :
    appendDecimal (v * 10 + d) = appendDecimal v ++ [hexDigit d] := by
  unfold appendDecimal
  have e3 : (v * 10 + d) % 10 = d := by omega
  by_cases h10 : v ≥ 10
  · have e1 : (v * 10 + d) / 100 = v / 10 := by omega
    have e2 : (v * 10 + d) / 10 % 10 = v % 10 := by omega
    rw [if_pos (by omega), if_pos (by omega), if_neg (by omega), if_pos h10, e1, e2, e3]
    have e4 : v / 10 % 10 = v / 10 := by omega
    rw [e4]
    simp
  · have e2 : (v * 10 + d) / 10 % 10 = v := by omega
    have e4 : v % 10 = v := by omega
    rw [if_neg (by omega), if_pos (by omega), if_neg (by omega), if_neg h10, e2, e3, e4]
    simp

/-- The decimal loop reads exactly the text of the octets it returns. -/
theorem parseIPv4Loop_text : ∀ (cs : List Char) (prev : Option Char) (fields : List Nat)
    (val digLen : Nat) (res : List Nat × Nat),
    parseIPv4Loop cs prev fields val digLen = some res →
    (digLen = 0 → val = 0) → (val = 0 → digLen ≤ 1) →
    (digLen = 0 → prev = none ∨ prev = some '.') →
    ∃ d, dottedText fields val digLen ++ cs = dottedText res.1 res.2 d ∧
      (d = 0 → cs = [] ∧ digLen = 0) ∧
      (fields.length ≤ 3 → res.1.length ≤ 3) ∧
      (∀ c ∈ cs, ('0' ≤ c ∧ c ≤ '9') ∨ c = '.') := by
  intro cs
  induction cs with
  | nil =>
    intro prev fields val digLen res h _ _ _
    simp only [parseIPv4Loop, Option.some.injEq] at h
    subst h
    exact ⟨digLen, by simp, fun hd => ⟨rfl, hd⟩, fun hl => hl, by simp⟩
  | cons c cs ih =>
    intro prev fields val digLen res h i1 i2 i3
    rw [parseIPv4Loop] at h
    by_cases hdig : '0' ≤ c ∧ c ≤ '9'
    · rw [if_pos hdig] at h
      by_cases hz : digLen = 1 ∧ val = 0
      · rw [if_pos hz] at h; exact absurd h (by simp)
      · rw [if_neg hz] at h
        by_cases hbig : val * 10 + (c.toNat - 48) > 255
        · rw [if_pos hbig] at h; exact absurd h (by simp)
        · rw [if_neg hbig] at h
          have hd9 : c.toNat - 48 ≤ 9 := by
            have := digit_toNat c hdig
            omega
          obtain ⟨d, htext, hd, hlen, hchars⟩ :=
            ih (some c) fields (val * 10 + (c.toNat - 48)) (digLen + 1) res h
              (by omega) (by omega) (by omega)
          refine ⟨d, ?_, ?_, hlen, ?_⟩
          · rw [← htext]
            unfold dottedText
            rw [if_neg (by omega : ¬ digLen + 1 = 0)]
            by_cases h0 : digLen = 0
            · have hv := i1 h0
              subst hv
              rw [if_pos h0, Nat.zero_mul, Nat.zero_add, appendDecimal_small _ hd9,
                hexDigit_digit c hdig]
              simp
            · rw [if_neg h0, appendDecimal_snoc val _ (by omega) hd9 (by omega),
                hexDigit_digit c hdig]
              simp
          · intro hd0
            have := (hd hd0).2
            omega
          · intro x hx
            rcases List.mem_cons.mp hx with rfl | hx
            · exact Or.inl hdig
            · exact hchars x hx
    · rw [if_neg hdig] at h
      by_cases hdot : c = '.'
      · rw [if_pos hdot] at h
        by_cases hbad : prev = none ∨ cs = [] ∨ prev = some '.'
        · rw [if_pos hbad] at h; exact absurd h (by simp)
        · rw [if_neg hbad] at h
          by_cases h3 : fields.length = 3
          · rw [if_pos h3] at h; exact absurd h (by simp)
          · rw [if_neg h3] at h
            have hcs : cs ≠ [] := fun hc => hbad (Or.inr (Or.inl hc))
            have hdl : digLen ≠ 0 := by
              intro h0
              rcases i3 h0 with hp | hp
              · exact hbad (Or.inl hp)
              · exact hbad (Or.inr (Or.inr hp))
            obtain ⟨d, htext, hd, hlen, hchars⟩ :=
              ih (some c) (fields ++ [val]) 0 0 res h (fun _ => rfl) (fun _ => by omega)
                (fun _ => Or.inr (by rw [hdot]))
            refine ⟨d, ?_, ?_, ?_, ?_⟩
            · rw [← htext]
              unfold dottedText
              rw [if_neg hdl, if_pos rfl, hdot]
              simp
            · intro hd0
              exact absurd (hd hd0).1 hcs
            · intro hl
              apply hlen
              rw [List.length_append, List.length_singleton]
              omega
            · intro x hx
              rcases List.mem_cons.mp hx with rfl | hx
              · exact Or.inr hdot
              · exact hchars x hx
      · rw [if_neg hdot] at h; exact absurd h (by simp)

/-- Joining with a separator, the last piece apart. -/
theorem joinWith_snoc (sep : Char) : ∀ (xs : List (List Char)) (x : List Char),
    joinWith sep (xs ++ [x]) = xs.flatMap (fun y => y ++ [sep]) ++ x := by
  intro xs
  induction xs with
  | nil => intro x; rfl
  | cons y ys ih =>
    intro x
    cases ys with
    | nil => simp [joinWith]
    | cons z zs =>
      have := ih x
      simp only [List.cons_append] at this
      show y ++ sep :: joinWith sep (z :: (zs ++ [x])) = _
      rw [this]
      simp

/-- Go's `netip.parseIPv4` accepts only the canonical text of four octets. -/
theorem parseIPv4_text (cs : List Char) (p4 : List Nat) (h : parseIPv4 cs = some p4) :
    string4 p4 = cs ∧ p4.length = 4 ∧ ∀ c ∈ cs, ('0' ≤ c ∧ c ≤ '9') ∨ c = '.' := by
  unfold parseIPv4 at h
  cases hl : parseIPv4Loop cs none [] 0 0 with
  | none => rw [hl] at h; exact absurd h (by simp)
  | some res =>
    rw [hl] at h
    obtain ⟨fields, val⟩ := res
    simp only at h
    by_cases hlt : fields.length < 3
    · rw [if_pos hlt] at h; exact absurd h (by simp)
    · rw [if_neg hlt, Option.some.injEq] at h
      subst h
      obtain ⟨d, htext, hd, hlen, hchars⟩ :=
        parseIPv4Loop_text cs none [] 0 0 (fields, val) hl (fun _ => rfl) (fun _ => by omega)
          (fun _ => Or.inl rfl)
      have hlen3 : fields.length ≤ 3 := hlen (by simp)
      have hd0 : d ≠ 0 := by
        intro h0
        have hcs := (hd h0).1
        subst hcs
        simp only [parseIPv4Loop, Option.some.injEq, Prod.mk.injEq] at hl
        obtain ⟨hf, -⟩ := hl
        subst hf
        simp at hlt
      refine ⟨?_, ?_, hchars⟩
      · unfold string4
        rw [List.map_append, List.map_singleton, joinWith_snoc]
        simp only [dottedText, if_neg hd0, List.flatMap_nil, List.nil_append, if_pos] at htext
        rw [htext]
        simp [List.flatMap_map]
      · rw [List.length_append, List.length_singleton]
        omega

/-- A dotted quad that `netip.parseIPv4` accepts is parsed by `net.ParseIP` to
its IPv4-mapped form. -/
theorem ParseIP_dotted (s : String) (p4 : List Nat) (h : parseIPv4 s.data = some p4) :
    ParseIP s = some ([0, 0, 0, 0, 0, 0, 0, 0, 0, 0, 255, 255] ++ p4) := by
  obtain ⟨htext, hlen, hchars⟩ := parseIPv4_text s.data p4 h
  have hdot : '.' ∈ s.data := by
    rw [← htext]
    match p4, hlen with
    | [a, b, c, d], _ => simp [string4, joinWith]
  unfold ParseIP
  split
  · rw [h]; rfl
  · next hf =>
    have hmem := List.mem_of_find?_eq_some hf
    rcases hchars _ hmem with hc | hc
    · exact absurd hc (by decide)
    · exact absurd hc (by decide)
  · next h1 h2 =>
    cases hf : s.data.find? (fun c => c == '.' || c == ':' || c == '%') with
    | none =>
      rw [List.find?_eq_none] at hf
      exact absurd (hf '.' hdot) (by decide)
    | some x =>
      have hmem := List.mem_of_find?_eq_some hf
      have hp := List.find?_some hf
      rcases hchars _ hmem with hc | hc
      · exfalso
        have hx := digit_toNat x hc
        simp only [Bool.or_eq_true, beq_iff_eq] at hp
        rcases hp with (hp | hp) | hp <;> subst hp <;> revert hx <;> decide
      · subst hc
        exact absurd hf h1

/-- The text of the IPv4-mapped form of four octets is their dotted quad. -/
theorem ipString_mapped (p4 : List Nat) (hlen : p4.length = 4) :
    ipString ([0, 0, 0, 0, 0, 0, 0, 0, 0, 0, 255, 255] ++ p4) = String.mk (string4 p4) := by
  match p4, hlen with
  | [a, b, c, d], _ => simp [ipString, To4]

/-! ## Printing an address and parsing it back -/

/-- A hexadecimal digit is read back with its value. -/
theorem hexVal_hexDigit (d : Nat) (h : d < 16) : hexVal (hexDigit d) = some d := by
  interval_cases d <;> rfl

/-- One hexadecimal digit read by the group loop. -/
theorem parseHex_step (c : Char) (cs : List Char) (off acc v : Nat) (hv : hexVal c = some v)
    (hoff : off ≤ 3) (hacc : acc * 16 + v ≤ 65535) :
    parseHex (c :: cs) off acc = parseHex cs (off + 1) (acc * 16 + v) := by
  rw [parseHex, hv]
  simp only
  rw [if_neg (by omega), if_neg (by omega)]

/-- The group loop stops at the end and at a character that is no digit. -/
theorem parseHex_stop (tail : List Char) (off acc : Nat)
    (ht : tail = [] ∨ ∃ c cs, tail = c :: cs ∧ hexVal c = none) :
    parseHex tail off acc = some (off, acc, tail) := by
  rcases ht with rfl | ⟨c, cs, rfl, hc⟩
  · rfl
  · rw [parseHex, hc]

/-- The group loop reads a printed group back. -/
theorem parseHex_appendHex (g : Nat) (tail : List Char) (hg : g < 65536)
    (ht : tail = [] ∨ ∃ c cs, tail = c :: cs ∧ hexVal c = none) :
    ∃ off, off ≠ 0 ∧ parseHex (appendHex g ++ tail) 0 0 = some (off, g, tail) := by
  unfold appendHex
  by_cases h3 : g ≥ 4096
  · refine ⟨4, by omega, ?_⟩
    rw [if_pos h3, if_pos (by omega), if_pos (by omega)]
    simp only [List.cons_append, List.nil_append, List.append_assoc]
    rw [parseHex_step _ _ _ _ _ (hexVal_hexDigit _ (by omega)) (by omega) (by omega),
      parseHex_step _ _ _ _ _ (hexVal_hexDigit _ (by omega)) (by omega) (by omega),
      parseHex_step _ _ _ _ _ (hexVal_hexDigit _ (by omega)) (by omega) (by omega),
      parseHex_step _ _ _ _ _ (hexVal_hexDigit _ (by omega)) (by omega) (by omega),
      parseHex_stop _ _ _ ht]
    simp only [Option.some.injEq, Prod.mk.injEq, and_true, true_and]
    omega
  · rw [if_neg h3]
    by_cases h2 : g ≥ 256
    · refine ⟨3, by omega, ?_⟩
      rw [if_pos h2, if_pos (by omega)]
      simp only [List.cons_append, List.nil_append, List.append_assoc]
      rw [parseHex_step _ _ _ _ _ (hexVal_hexDigit _ (by omega)) (by omega) (by omega),
        parseHex_step _ _ _ _ _ (hexVal_hexDigit _ (by omega)) (by omega) (by omega),
        parseHex_step _ _ _ _ _ (hexVal_hexDigit _ (by omega)) (by omega) (by omega),
        parseHex_stop _ _ _ ht]
      simp only [Option.some.injEq, Prod.mk.injEq, and_true, true_and]
      omega
    · rw [if_neg h2]
      by_cases h1 : g ≥ 16
      · refine ⟨2, by omega, ?_⟩
        rw [if_pos h1]
        simp only [List.cons_append, List.nil_append, List.append_assoc]
        rw [parseHex_step _ _ _ _ _ (hexVal_hexDigit _ (by omega)) (by omega) (by omega),
          parseHex_step _ _ _ _ _ (hexVal_hexDigit _ (by omega)) (by omega) (by omega),
          parseHex_stop _ _ _ ht]
        simp only [Option.some.injEq, Prod.mk.injEq, and_true, true_and]
        omega
      · refine ⟨1, by omega, ?_⟩
        rw [if_neg h1]
        simp only [List.cons_append, List.nil_append, List.append_assoc]
        rw [parseHex_step _ _ _ _ _ (hexVal_hexDigit _ (by omega)) (by omega) (by omega),
          parseHex_stop _ _ _ ht]
        simp only [Option.some.injEq, Prod.mk.injEq, and_true, true_and]
        omega

/-- A hexadecimal digit is none of the separators. -/
theorem hexDigit_not_sep (k : Nat) (h : k < 16) :
    hexDigit k ≠ ':' ∧ hexDigit k ≠ '.' ∧ hexDigit k ≠ '%' := by
  interval_cases k <;> decide

/-- A printed group is made of hexadecimal digits. -/
theorem appendHex_chars (g : Nat) (hg : g < 65536) :
    ∀ c ∈ appendHex g, ∃ k, k < 16 ∧ c = hexDigit k := by
  intro c hc
  unfold appendHex at hc
  simp only [List.mem_append, List.mem_singleton] at hc
  rcases hc with ((hc | hc) | hc) | hc
  · split at hc
    · exact ⟨g / 4096, by omega, by simpa using hc⟩
    · simp at hc
  · split at hc
    · exact ⟨g / 256 % 16, by omega, by simpa using hc⟩
    · simp at hc
  · split at hc
    · exact ⟨g / 16 % 16, by omega, by simpa using hc⟩
    · simp at hc
  · exact ⟨g % 16, by omega, hc⟩

/-- A printed group starts with a hexadecimal digit. -/
theorem appendHex_head (g : Nat) (hg : g < 65536) :
    ∃ k cs, k < 16 ∧ appendHex g = hexDigit k :: cs := by
  unfold appendHex
  by_cases h3 : g ≥ 4096
  · exact ⟨g / 4096, _, by omega, by rw [if_pos h3]; rfl⟩
  · by_cases h2 : g ≥ 256
    · exact ⟨g / 256 % 16, _, by omega, by rw [if_neg h3, if_pos h2]; rfl⟩
    · by_cases h1 : g ≥ 16
      · exact ⟨g / 16 % 16, _, by omega, by rw [if_neg h3, if_neg h2, if_pos h1]; rfl⟩
      · exact ⟨g % 16, _, by omega, by rw [if_neg h3, if_neg h2, if_neg h1]; rfl⟩

/-- Joined groups start with a hexadecimal digit. -/
theorem hexes_head (g : Nat) (gs : List Nat) (hg : g < 65536) :
    ∃ k cs, k < 16 ∧ joinWith ':' ((g :: gs).map appendHex) = hexDigit k :: cs := by
  obtain ⟨k, cs, hk, hh⟩ := appendHex_head g hg
  cases gs with
  | nil => exact ⟨k, cs, hk, by simp [joinWith, hh]⟩
  | cons y ys =>
    exact ⟨k, cs ++ ':' :: joinWith ':' ((y :: ys).map appendHex), hk, by
      simp only [List.map_cons, joinWith, hh, List.cons_append]⟩

/-- The characters of joined pieces. -/
theorem joinWith_chars (sep : Char) : ∀ (xs : List (List Char)) (c : Char),
    c ∈ joinWith sep xs → c = sep ∨ ∃ x ∈ xs, c ∈ x := by
  intro xs
  induction xs with
  | nil => intro c hc; simp [joinWith] at hc
  | cons x xs ih =>
    intro c hc
    cases xs with
    | nil => exact Or.inr ⟨x, by simp, by simpa [joinWith] using hc⟩
    | cons y ys =>
      simp only [joinWith, List.mem_append, List.mem_cons] at hc
      rcases hc with hc | hc | hc
      · exact Or.inr ⟨x, by simp, hc⟩
      · exact Or.inl hc
      · rcases ih c hc with h | ⟨z, hz, hcz⟩
        · exact Or.inl h
        · exact Or.inr ⟨z, List.mem_cons_of_mem _ hz, hcz⟩

/-- The last group of a text: the outer loop ends with its two bytes. -/
theorem loop_last (fuel g : Nat) (ip : List Nat) (e : Option Nat) (hg : g < 65536)
    (hs : ip.length < 16) :
    parseIPv6Loop (fuel + 1) (appendHex g) ip e = some ([], ip ++ [g / 256, g % 256], e) := by
  obtain ⟨off, hoff, hp⟩ := parseHex_appendHex g [] hg (Or.inl rfl)
  rw [List.append_nil] at hp
  rw [parseIPv6Loop]
  simp [hs, hp, hoff]

/-- A group followed by a colon and a further group. -/
theorem loop_colon (fuel g : Nat) (ip : List Nat) (e : Option Nat) (c1 : Char)
    (rest2 : List Char) (hg : g < 65536) (hs : ip.length < 16) (hc1 : c1 ≠ ':') :
    parseIPv6Loop (fuel + 1) (appendHex g ++ ':' :: c1 :: rest2) ip e =
      parseIPv6Loop fuel (c1 :: rest2) (ip ++ [g / 256, g % 256]) e := by
  obtain ⟨off, hoff, hp⟩ :=
    parseHex_appendHex g (':' :: c1 :: rest2) hg (Or.inr ⟨_, _, rfl, by decide⟩)
  rw [parseIPv6Loop]
  simp [hs, hp, hoff, hc1]

/-- A group followed by the ellipsis. -/
theorem loop_ellipsis (fuel g : Nat) (ip : List Nat) (rest2 : List Char) (hg : g < 65536)
    (hs : ip.length < 16) :
    parseIPv6Loop (fuel + 1) (appendHex g ++ ':' :: ':' :: rest2) ip none =
      if rest2 = [] then some ([], ip ++ [g / 256, g % 256], some (ip.length + 2))
      else parseIPv6Loop fuel rest2 (ip ++ [g / 256, g % 256]) (some (ip.length + 2)) := by
  obtain ⟨off, hoff, hp⟩ :=
    parseHex_appendHex g (':' :: ':' :: rest2) hg (Or.inr ⟨_, _, rfl, by decide⟩)
  rw [parseIPv6Loop]
  simp [hs, hp, hoff]

/-- Groups up to the end of the text. -/
theorem loop_groups : ∀ (gs : List Nat), gs ≠ [] → ∀ (fuel : Nat) (ip : List Nat)
    (e : Option Nat), gs.length ≤ fuel → ip.length + 2 * gs.length ≤ 16 →
    (∀ x ∈ gs, x < 65536) →
    parseIPv6Loop fuel (joinWith ':' (gs.map appendHex)) ip e =
      some ([], ip ++ groupBytes gs, e) := by
  intro gs
  induction gs with
  | nil => intro h; exact absurd rfl h
  | cons g gs ih =>
    intro _ fuel ip e hf hl hb
    obtain ⟨f, rfl⟩ : ∃ f, fuel = f + 1 := ⟨fuel - 1, by simp at hf; omega⟩
    have hg : g < 65536 := hb g (by simp)
    cases gs with
    | nil =>
      simp only [List.map_cons, List.map_nil, joinWith, groupBytes, List.flatMap_cons,
        List.flatMap_nil, List.append_nil]
      exact loop_last f g ip e hg (by simp at hl; omega)
    | cons y ys =>
      obtain ⟨k, cs, hk, hh⟩ := hexes_head y ys (hb y (by simp))
      have hjoin : joinWith ':' ((g :: y :: ys).map appendHex) =
          appendHex g ++ ':' :: joinWith ':' ((y :: ys).map appendHex) := by
        simp only [List.map_cons, joinWith]
      rw [hjoin, hh, loop_colon f g ip e _ cs hg (by simp at hl; omega)
        (hexDigit_not_sep k hk).1, ← hh,
        ih (by simp) f _ e (by simp at hf ⊢; omega) (by simp at hl ⊢; omega)
          (fun x hx => hb x (List.mem_cons_of_mem _ hx))]
      simp [groupBytes]

/-- Groups, the ellipsis, and groups up to the end of the text. -/
theorem loop_groups_ellipsis : ∀ (A : List Nat), A ≠ [] → ∀ (fuel : Nat) (ip : List Nat)
    (B : List Nat), A.length + B.length ≤ fuel → ip.length + 2 * (A.length + B.length) ≤ 16 →
    (∀ x ∈ A, x < 65536) → (∀ x ∈ B, x < 65536) →
    parseIPv6Loop fuel
      (joinWith ':' (A.map appendHex) ++ ':' :: ':' :: joinWith ':' (B.map appendHex)) ip none =
      some ([], ip ++ groupBytes A ++ groupBytes B, some (ip.length + 2 * A.length)) := by
  intro A
  induction A with
  | nil => intro h; exact absurd rfl h
  | cons g A ih =>
    intro _ fuel ip B hf hl hA hB
    obtain ⟨f, rfl⟩ : ∃ f, fuel = f + 1 := ⟨fuel - 1, by simp at hf; omega⟩
    have hg : g < 65536 := hA g (by simp)
    have hs : ip.length < 16 := by simp at hl; omega
    cases A with
    | nil =>
      simp only [List.map_cons, List.map_nil, joinWith]
      rw [loop_ellipsis f g ip _ hg hs]
      cases B with
      | nil => simp [joinWith, groupBytes]
      | cons b bs =>
        obtain ⟨k, cs, hk, hh⟩ := hexes_head b bs (hB b (by simp))
        rw [if_neg (by rw [hh]; simp),
          loop_groups (b :: bs) (by simp) f _ _ (by simp at hf ⊢; omega)
            (by simp at hl ⊢; omega) hB]
        simp [groupBytes]
    | cons y ys =>
      obtain ⟨k, cs, hk, hh⟩ := hexes_head y ys (hA y (by simp))
      have hjoin : joinWith ':' ((g :: y :: ys).map appendHex) =
          appendHex g ++ ':' :: joinWith ':' ((y :: ys).map appendHex) := by
        simp only [List.map_cons, joinWith]
      have hih := ih (by simp) f (ip ++ [g / 256, g % 256]) B (by simp at hf ⊢; omega)
        (by simp at hl ⊢; omega) (fun x hx => hA x (List.mem_cons_of_mem _ hx)) hB
      rw [hh] at hih
      rw [hjoin, hh]
      simp only [List.append_assoc, List.cons_append] at hih ⊢
      rw [loop_colon f g ip none _ _ hg hs (hexDigit_not_sep k hk).1, hih]
      simp [groupBytes]
      omega

/-- The leading zeros of a list: no more than its elements, and zeros. -/
theorem leading_zeros (l : List Nat) :
    (l.takeWhile (fun x => x == 0)).length ≤ l.length ∧
    ∀ x ∈ l.take (l.takeWhile (fun x => x == 0)).length, x = 0 := by
  induction l with
  | nil => simp
  | cons a l ih =>
    by_cases ha : a = 0
    · subst ha
      simp only [List.takeWhile_cons, beq_self_eq_true, if_true, List.length_cons,
        List.take_succ_cons, List.mem_cons]
      refine ⟨by omega, ?_⟩
      intro x hx
      rcases hx with hx | hx
      · exact hx
      · exact ih.2 x hx
    · have hb : (a == 0) = false := by simpa using ha
      simp [List.takeWhile_cons, hb]

/-- A fold keeps what every step keeps. -/
theorem foldl_keeps {α β : Type} (P : α → Prop) (f : α → β → α)
    (hf : ∀ z i, P z → P (f z i)) : ∀ (l : List β) (z : α), P z → P (l.foldl f z) := by
  intro l
  induction l with
  | nil => intro z hz; exact hz
  | cons i l ih => intro z hz; exact ih _ (hf z i hz)

/-- The zero run that the printer picks: none, or at least two groups inside
the address that are all zero. -/
theorem longestZeroRun_spec (g : List Nat) :
    longestZeroRun g = (255, 255) ∨
    ((longestZeroRun g).1 + 2 ≤ (longestZeroRun g).2 ∧ (longestZeroRun g).2 ≤ g.length ∧
      ∀ x ∈ (g.drop (longestZeroRun g).1).take ((longestZeroRun g).2 - (longestZeroRun g).1),
        x = 0) := by
  unfold longestZeroRun
  apply foldl_keeps (fun z : Nat × Nat => z = (255, 255) ∨ (z.1 + 2 ≤ z.2 ∧ z.2 ≤ g.length ∧
      ∀ x ∈ (g.drop z.1).take (z.2 - z.1), x = 0))
  · intro z i hz
    simp only
    split
    · next hc =>
      right
      obtain ⟨hlen, hzero⟩ := leading_zeros (g.drop i)
      rw [List.length_drop] at hlen
      refine ⟨by omega, by omega, ?_⟩
      intro x hx
      simp only [Nat.add_sub_cancel_left] at hx
      exact hzero x hx
    · exact hz
  · exact Or.inl rfl

/-- The bytes of zero groups. -/
theorem groupBytes_zeros (n : Nat) : groupBytes (List.replicate n 0) = List.replicate (2 * n) 0 := by
  induction n with
  | zero => rfl
  | succ n ih =>
    have h2 : 2 * (n + 1) = (2 * n + 1) + 1 := by omega
    rw [List.replicate_succ, h2, List.replicate_succ, List.replicate_succ]
    unfold groupBytes at ih ⊢
    rw [List.flatMap_cons, ih]
    rfl

/-- The bytes of two lists of groups. -/
theorem groupBytes_append (xs ys : List Nat) :
    groupBytes (xs ++ ys) = groupBytes xs ++ groupBytes ys := by
  unfold groupBytes
  simp

/-- Two bytes for each group. -/
theorem groupBytes_length (xs : List Nat) : (groupBytes xs).length = 2 * xs.length := by
  induction xs with
  | nil => rfl
  | cons x xs ih =>
    unfold groupBytes at ih ⊢
    rw [List.flatMap_cons, List.length_append, ih]
    simp
    omega

/-- The characters of joined groups. -/
theorem hexes_chars (gs : List Nat) (hb : ∀ x ∈ gs, x < 65536) :
    ∀ c ∈ joinWith ':' (gs.map appendHex), c = ':' ∨ ∃ k, k < 16 ∧ c = hexDigit k := by
  intro c hc
  rcases joinWith_chars ':' _ c hc with h | ⟨x, hx, hcx⟩
  · exact Or.inl h
  · obtain ⟨y, hy, rfl⟩ := List.mem_map.mp hx
    exact Or.inr (appendHex_chars y (hb y hy) c hcx)

/-- The characters of a printed IPv6 address. -/
theorem string6_chars (g : List Nat) (hb : ∀ x ∈ g, x < 65536) :
    ∀ c ∈ string6 g, c = ':' ∨ ∃ k, k < 16 ∧ c = hexDigit k := by
  intro c hc
  unfold string6 at hc
  simp only at hc
  split at hc
  · exact hexes_chars g hb c hc
  · simp only [List.mem_append, List.mem_cons, List.mem_singleton, List.not_mem_nil,
      or_false] at hc
    rcases hc with (hc | hc) | hc
    · exact hexes_chars _ (fun x hx => hb x (List.mem_of_mem_take hx)) c hc
    · exact Or.inl (by rcases hc with h | h <;> exact h)
    · exact hexes_chars _ (fun x hx => hb x (List.mem_of_mem_drop hx)) c hc

/-- The three steps of `parseIPv6`. -/
theorem parseIPv6_steps (s : List Char) :
    parseIPv6 s =
      if '%' ∈ s then none
      else if (ellipsisStart s).2.isSome ∧ (ellipsisStart s).1 = [] then
        some (List.replicate 16 0)
      else ellipsisFill (parseIPv6Loop 8 (ellipsisStart s).1 [] (ellipsisStart s).2) := by
  rfl

/-- A text that does not start with a colon has no leading ellipsis. -/
theorem ellipsisStart_plain (c : Char) (cs : List Char) (hc : c ≠ ':') :
    ellipsisStart (c :: cs) = (c :: cs, none) := by
  unfold ellipsisStart
  split
  · next t heq =>
    simp only [List.cons.injEq] at heq
    exact absurd heq.1 hc
  · rfl

/-- A leading ellipsis is taken off. -/
theorem ellipsisStart_leading (t : List Char) :
    ellipsisStart (':' :: ':' :: t) = (t, some 0) := by
  rfl

/-- A printed IPv6 address holds no zone sign. -/
theorem string6_no_zone (g : List Nat) (hb : ∀ x ∈ g, x < 65536) : '%' ∉ string6 g := by
  intro h
  rcases string6_chars g hb _ h with h1 | ⟨k, hk, h1⟩
  · revert h1; decide
  · exact (hexDigit_not_sep k hk).2.2 h1.symm

/-- Joined groups hold no zone sign. -/
theorem hexes_no_zone (gs : List Nat) (hb : ∀ x ∈ gs, x < 65536) :
    '%' ∉ joinWith ':' (gs.map appendHex) := by
  intro h
  rcases hexes_chars gs hb _ h with h1 | ⟨k, hk, h1⟩
  · revert h1; decide
  · exact (hexDigit_not_sep k hk).2.2 h1.symm

/-- The text of eight groups parses back to their bytes. -/
theorem parseIPv6_string6 (g : List Nat) (hlen : g.length = 8) (hb : ∀ x ∈ g, x < 65536) :
    parseIPv6 (string6 g) = some (groupBytes g) := by
  have hzone := string6_no_zone g hb
  rw [parseIPv6_steps, if_neg hzone]
  unfold string6 at hzone ⊢
  simp only at hzone ⊢
  by_cases hz : (longestZeroRun g).1 = 255
  · rw [if_pos hz] at hzone ⊢
    match g, hlen, hb with
    | g0 :: gs, hlen, hb =>
      obtain ⟨k, cs, hk, hh⟩ := hexes_head g0 gs (hb g0 (by simp))
      have hloop := loop_groups (g0 :: gs) (by simp) 8 [] none (by omega)
        (by simp only [List.length_nil]; omega) hb
      rw [hh] at hloop ⊢
      rw [ellipsisStart_plain _ _ (hexDigit_not_sep k hk).1]
      simp only [Option.isSome_none, Bool.false_eq_true, false_and, if_false, hloop,
        ellipsisFill, List.nil_append, ne_eq, not_true_eq_false, groupBytes_length, hlen]
      simp
  · rw [if_neg hz] at hzone ⊢
    rcases longestZeroRun_spec g with h255 | ⟨h1, h2, h3⟩
    · rw [h255] at hz
      exact absurd rfl hz
    · generalize (longestZeroRun g).1 = zs at h1 h2 h3 hzone ⊢
      generalize (longestZeroRun g).2 = ze at h1 h2 h3 hzone ⊢
      have hmid : (g.drop zs).take (ze - zs) = List.replicate (ze - zs) 0 := by
        rw [List.eq_replicate_iff]
        refine ⟨?_, h3⟩
        rw [List.length_take, List.length_drop]
        omega
      have hsplit : g = g.take zs ++ List.replicate (ze - zs) 0 ++ g.drop ze := by
        have hd : g.drop ze = (g.drop zs).drop (ze - zs) := by
          rw [List.drop_drop]
          congr 1
          omega
        rw [hd, List.append_assoc, ← hmid, List.take_append_drop, List.take_append_drop]
      have hbytes : groupBytes g = groupBytes (g.take zs) ++ List.replicate (2 * (ze - zs)) 0 ++
          groupBytes (g.drop ze) := by
        conv_lhs => rw [hsplit]
        rw [groupBytes_append, groupBytes_append, groupBytes_zeros]
      have hA : ∀ x ∈ g.take zs, x < 65536 := fun x hx => hb x (List.mem_of_mem_take hx)
      have hB : ∀ x ∈ g.drop ze, x < 65536 := fun x hx => hb x (List.mem_of_mem_drop hx)
      have hlA : (g.take zs).length = zs := by rw [List.length_take]; omega
      have hlB : (g.drop ze).length = 8 - ze := by rw [List.length_drop]; omega
      rw [hbytes]
      generalize g.take zs = A at hA hlA hzone ⊢
      generalize g.drop ze = B at hB hlB hzone ⊢
      cases A with
      | nil =>
        have hzs : zs = 0 := by simpa using hlA.symm
        subst hzs
        simp only [List.map_nil, joinWith, List.nil_append, List.cons_append,
          ellipsisStart_leading, Option.isSome_some, true_and, groupBytes, List.flatMap_nil]
        cases B with
        | nil =>
          have hze : ze = 8 := by simp at hlB; omega
          subst hze
          simp [joinWith]
        | cons b bs =>
          obtain ⟨k, cs, hk, hh⟩ := hexes_head b bs (hB b (by simp))
          have hloop := loop_groups (b :: bs) (by simp) 8 [] (some 0) (by omega)
            (by simp only [List.length_nil]; omega) hB
          rw [if_neg (by rw [hh]; simp), hloop]
          simp only [ellipsisFill, List.nil_append, ne_eq, not_true_eq_false, if_false,
            groupBytes_length, hlB, List.take_zero, List.drop_zero]
          rw [if_pos (by omega)]
          congr 3
          omega
      | cons a as =>
        obtain ⟨k, cs, hk, hh⟩ := hexes_head a as (hA a (by simp))
        have hloop := loop_groups_ellipsis (a :: as) (by simp) 8 [] B (by omega)
          (by simp only [List.length_nil]; omega) hA hB
        simp only [List.append_assoc, List.cons_append, List.nil_append] at hloop ⊢
        rw [hh] at hloop ⊢
        simp only [List.cons_append] at hloop ⊢
        rw [ellipsisStart_plain _ _ (hexDigit_not_sep k hk).1]
        simp only [Option.isSome_none, Bool.false_eq_true, false_and, if_false, hloop,
          ellipsisFill, ne_eq, not_true_eq_false, List.length_append, groupBytes_length, hlA,
          hlB, List.length_nil, Nat.zero_add]
        rw [if_pos (by omega)]
        have hla : (groupBytes (a :: as)).length = 2 * zs := by rw [groupBytes_length, hlA]
        rw [List.take_left' hla, List.drop_left' hla]
        have hfill : 16 - (2 * zs + 2 * (8 - ze)) = 2 * (ze - zs) := by omega
        rw [hfill, List.append_assoc]

/-- The character of a decimal digit. -/
theorem digit_hexDigit (d : Nat) (h : d ≤ 9) :
    ('0' ≤ hexDigit d ∧ hexDigit d ≤ '9') ∧ (hexDigit d).toNat - 48 = d ∧
      hexDigit d ≠ '.' := by
  interval_cases d <;> decide

/-- One digit read by the decimal loop. -/
theorem parseIPv4Loop_digit (d : Nat) (tail : List Char) (prev : Option Char)
    (fields : List Nat) (val digLen : Nat) (hd : d ≤ 9) (hz : ¬ (digLen = 1 ∧ val = 0))
    (hv : val * 10 + d ≤ 255) :
    parseIPv4Loop (hexDigit d :: tail) prev fields val digLen =
      parseIPv4Loop tail (some (hexDigit d)) fields (val * 10 + d) (digLen + 1) := by
  obtain ⟨h1, h2, -⟩ := digit_hexDigit d hd
  rw [parseIPv4Loop, if_pos h1, if_neg hz, h2, if_neg (by omega)]

/-- A dot behind a digit closes the octet. -/
theorem parseIPv4Loop_dot (d : Nat) (rest : List Char) (fields : List Nat) (val digLen : Nat)
    (hd : d ≤ 9) (hr : rest ≠ []) (hf : fields.length ≠ 3) :
    parseIPv4Loop ('.' :: rest) (some (hexDigit d)) fields val digLen =
      parseIPv4Loop rest (some '.') (fields ++ [val]) 0 0 := by
  obtain ⟨-, -, h3⟩ := digit_hexDigit d hd
  rw [parseIPv4Loop, if_neg (by decide), if_pos rfl, if_neg, if_neg hf]
  intro h
  rcases h with h | h | h
  · exact absurd h (by simp)
  · exact hr h
  · exact h3 (Option.some.inj h)

/-- The decimal loop reads a printed octet back. -/
theorem parseIPv4Loop_octet (a : Nat) (tail : List Char) (prev : Option Char)
    (fields : List Nat) (ha : a ≤ 255) :
    ∃ n, parseIPv4Loop (appendDecimal a ++ tail) prev fields 0 0 =
      parseIPv4Loop tail (some (hexDigit (a % 10))) fields a n := by
  unfold appendDecimal
  by_cases h100 : a ≥ 100
  · refine ⟨3, ?_⟩
    rw [if_pos h100, if_pos (by omega)]
    simp only [List.cons_append, List.nil_append, List.append_assoc]
    rw [parseIPv4Loop_digit _ _ _ _ _ _ (by omega) (by omega) (by omega),
      parseIPv4Loop_digit _ _ _ _ _ _ (by omega) (by omega) (by omega),
      parseIPv4Loop_digit _ _ _ _ _ _ (by omega) (by omega) (by omega)]
    congr 1
    omega
  · by_cases h10 : a ≥ 10
    · refine ⟨2, ?_⟩
      rw [if_neg h100, if_pos h10]
      simp only [List.cons_append, List.nil_append, List.append_assoc]
      rw [parseIPv4Loop_digit _ _ _ _ _ _ (by omega) (by omega) (by omega),
        parseIPv4Loop_digit _ _ _ _ _ _ (by omega) (by omega) (by omega)]
      congr 1
      omega
    · refine ⟨1, ?_⟩
      rw [if_neg h100, if_neg h10]
      simp only [List.cons_append, List.nil_append, List.append_assoc]
      rw [parseIPv4Loop_digit _ _ _ _ _ _ (by omega) (by omega) (by omega)]
      congr 1
      omega

/-- A printed octet is not empty. -/
theorem appendDecimal_ne_nil (a : Nat) : appendDecimal a ≠ [] := by
  unfold appendDecimal
  simp

/-- The dotted quad of four octets parses back to them. -/
theorem parseIPv4_string4 (a b c d : Nat) (ha : a ≤ 255) (hb : b ≤ 255) (hc : c ≤ 255)
    (hd : d ≤ 255) : parseIPv4 (string4 [a, b, c, d]) = some [a, b, c, d] := by
  have htext : string4 [a, b, c, d] =
      appendDecimal a ++ '.' :: (appendDecimal b ++ '.' :: (appendDecimal c ++ '.' ::
        (appendDecimal d ++ []))) := by
    simp [string4, joinWith]
  obtain ⟨n1, h1⟩ := parseIPv4Loop_octet a ('.' :: (appendDecimal b ++ '.' ::
    (appendDecimal c ++ '.' :: (appendDecimal d ++ [])))) none [] ha
  obtain ⟨n2, h2⟩ := parseIPv4Loop_octet b ('.' :: (appendDecimal c ++ '.' ::
    (appendDecimal d ++ []))) (some '.') ([] ++ [a]) hb
  obtain ⟨n3, h3⟩ := parseIPv4Loop_octet c ('.' :: (appendDecimal d ++ []))
    (some '.') ([] ++ [a] ++ [b]) hc
  obtain ⟨n4, h4⟩ := parseIPv4Loop_octet d [] (some '.') ([] ++ [a] ++ [b] ++ [c]) hd
  unfold parseIPv4
  rw [htext, h1, parseIPv4Loop_dot _ _ _ _ _ (by omega) (by simp [appendDecimal_ne_nil])
      (by simp),
    h2, parseIPv4Loop_dot _ _ _ _ _ (by omega) (by simp [appendDecimal_ne_nil]) (by simp),
    h3, parseIPv4Loop_dot _ _ _ _ _ (by omega) (by simp [appendDecimal_ne_nil]) (by simp),
    h4]
  simp [parseIPv4Loop]

/-- The groups of an address give its bytes back. -/
theorem groupBytes_groups : ∀ (n : Nat) (ip : List Nat), ip.length = 2 * n →
    (∀ b ∈ ip, b < 256) →
    groupBytes (groups ip) = ip ∧ (groups ip).length = n ∧ ∀ x ∈ groups ip, x < 65536 := by
  intro n
  induction n with
  | zero =>
    intro ip hl _
    have : ip = [] := List.length_eq_zero.mp (by omega)
    subst this
    simp [groups, groupBytes]
  | succ n ih =>
    intro ip hl hb
    match ip, hl, hb with
    | hi :: lo :: rest, hl, hb =>
      have hhi : hi < 256 := hb hi (by simp)
      have hlo : lo < 256 := hb lo (by simp)
      obtain ⟨h1, h2, h3⟩ := ih rest (by simp at hl; omega)
        (fun b hbm => hb b (List.mem_cons_of_mem _ (List.mem_cons_of_mem _ hbm)))
      have hd : (hi * 256 + lo) / 256 = hi := by omega
      have hm : (hi * 256 + lo) % 256 = lo := by omega
      refine ⟨?_, ?_, ?_⟩
      · unfold groupBytes at h1 ⊢
        rw [groups, List.flatMap_cons, h1, hd, hm]
        rfl
      · rw [groups, List.length_cons, h2]
      · intro x hx
        rw [groups] at hx
        rcases List.mem_cons.mp hx with rfl | hx
        · omega
        · exact h3 x hx

/-- A printed IPv6 address holds a colon. -/
theorem string6_colon (g : List Nat) (hlen : g.length = 8) : ':' ∈ string6 g := by
  unfold string6
  simp only
  split
  · match g, hlen with
    | g0 :: g1 :: gs, _ => simp [joinWith]
  · simp

/-- A text of hexadecimal digits and colons with a colon goes to the IPv6
parser. -/
theorem ParseIP_colon (s : String)
    (hchars : ∀ c ∈ s.data, c = ':' ∨ ∃ k, k < 16 ∧ c = hexDigit k) (hcolon : ':' ∈ s.data) :
    ParseIP s = parseIPv6 s.data := by
  have hfind : s.data.find? (fun c => c == '.' || c == ':' || c == '%') = some ':' := by
    cases hf : s.data.find? (fun c => c == '.' || c == ':' || c == '%') with
    | none =>
      rw [List.find?_eq_none] at hf
      exact absurd (hf ':' hcolon) (by decide)
    | some x =>
      have hmem := List.mem_of_find?_eq_some hf
      have hp := List.find?_some hf
      rcases hchars x hmem with hx | ⟨k, hk, hx⟩
      · rw [hx]
      · exfalso
        obtain ⟨n1, n2, n3⟩ := hexDigit_not_sep k hk
        simp only [Bool.or_eq_true, beq_iff_eq] at hp
        rcases hp with (hp | hp) | hp
        · exact n2 (hx ▸ hp)
        · exact n1 (hx ▸ hp)
        · exact n3 (hx ▸ hp)
  unfold ParseIP
  rw [hfind]
  rfl

/-- The text of an address of 16 bytes parses back to the address. -/
theorem ParseIP_ipString (ip : IP) (hlen : ip.length = 16) (hb : ∀ b ∈ ip, b < 256) :
    ParseIP (ipString ip) = some ip := by
  unfold ipString
  rw [if_neg (by omega), if_neg (by omega)]
  cases h4 : To4 ip with
  | some p4 =>
    simp only
    unfold To4 at h4
    rw [if_neg (by omega)] at h4
    split at h4
    · next hcond =>
      obtain ⟨-, h10, h2⟩ := hcond
      rw [Option.some.injEq] at h4
      have hip : ip = [0, 0, 0, 0, 0, 0, 0, 0, 0, 0, 255, 255] ++ p4 := by
        have e1 : ip = ip.take 10 ++ ip.drop 10 := (List.take_append_drop 10 ip).symm
        have e2 : ip.drop 10 = (ip.drop 10).take 2 ++ (ip.drop 10).drop 2 :=
          (List.take_append_drop 2 _).symm
        rw [List.drop_drop] at e2
        rw [e1, e2, h10, h2, ← h4]
        rfl
      have hp4len : p4.length = 4 := by
        rw [← h4, List.length_drop]
        omega
      match p4, hp4len with
      | [a, b, c, d], _ =>
        have hbd : ∀ x ∈ [a, b, c, d], x < 256 := by
          intro x hx
          apply hb
          rw [hip]
          exact List.mem_append_right _ hx
        have hparse : parseIPv4 (String.mk (string4 [a, b, c, d])).data = some [a, b, c, d] :=
          parseIPv4_string4 a b c d
            (by have := hbd a (by simp); omega) (by have := hbd b (by simp); omega)
            (by have := hbd c (by simp); omega) (by have := hbd d (by simp); omega)
        rw [ParseIP_dotted _ _ hparse, hip]
    · exact absurd h4 (by simp)
  | none =>
    simp only
    obtain ⟨hbytes, hglen, hgb⟩ := groupBytes_groups 8 ip (by omega) hb
    have hdisp := ParseIP_colon (String.mk (string6 (groups ip)))
      (string6_chars (groups ip) hgb) (string6_colon (groups ip) hglen)
    rw [hdisp]
    show parseIPv6 (string6 (groups ip)) = some ip
    rw [parseIPv6_string6 _ hglen hgb, hbytes]

/-- The decimal loop returns octets. -/
theorem parseIPv4Loop_bound : ∀ (cs : List Char) (prev : Option Char) (fields : List Nat)
    (val digLen : Nat) (res : List Nat × Nat),
    parseIPv4Loop cs prev fields val digLen = some res →
    (∀ x ∈ fields, x ≤ 255) → val ≤ 255 → (∀ x ∈ res.1, x ≤ 255) ∧ res.2 ≤ 255 := by
  intro cs
  induction cs with
  | nil =>
    intro prev fields val digLen res h hf hv
    simp only [parseIPv4Loop, Option.some.injEq] at h
    subst h
    exact ⟨hf, hv⟩
  | cons c cs ih =>
    intro prev fields val digLen res h hf hv
    rw [parseIPv4Loop] at h
    split at h
    · split at h
      · exact absurd h (by simp)
      · split at h
        · exact absurd h (by simp)
        · exact ih _ _ _ _ res h hf (by omega)
    · split at h
      · split at h
        · exact absurd h (by simp)
        · split at h
          · exact absurd h (by simp)
          · refine ih _ _ _ _ res h ?_ (by omega)
            intro x hx
            rcases List.mem_append.mp hx with hx | hx
            · exact hf x hx
            · simp only [List.mem_singleton] at hx
              omega
      · exact absurd h (by simp)

/-- The octets of an accepted dotted quad are bytes. -/
theorem parseIPv4_bound (cs : List Char) (p4 : List Nat) (h : parseIPv4 cs = some p4) :
    ∀ x ∈ p4, x < 256 := by
  unfold parseIPv4 at h
  cases hl : parseIPv4Loop cs none [] 0 0 with
  | none => rw [hl] at h; exact absurd h (by simp)
  | some res =>
    rw [hl] at h
    obtain ⟨fields, val⟩ := res
    simp only at h
    split at h
    · exact absurd h (by simp)
    · rw [Option.some.injEq] at h
      subst h
      obtain ⟨h1, h2⟩ := parseIPv4Loop_bound cs none [] 0 0 (fields, val) hl (by simp) (by omega)
      intro x hx
      rcases List.mem_append.mp hx with hx | hx
      · have := h1 x hx
        omega
      · simp only [List.mem_singleton] at hx
        simp only at h2
        omega

/-- The group loop returns a 16-bit value. -/
theorem parseHex_bound : ∀ (cs : List Char) (off acc : Nat) (res : Nat × Nat × List Char),
    parseHex cs off acc = some res → acc ≤ 65535 → res.2.1 ≤ 65535 := by
  intro cs
  induction cs with
  | nil =>
    intro off acc res h ha
    simp only [parseHex, Option.some.injEq] at h
    subst h
    exact ha
  | cons c cs ih =>
    intro off acc res h ha
    rw [parseHex] at h
    split at h
    · rw [Option.some.injEq] at h
      subst h
      exact ha
    · split at h
      · exact absurd h (by simp)
      · split at h
        · exact absurd h (by simp)
        · exact ih _ _ res h (by omega)

/-- The outer loop keeps an even number of bytes, at most 16. -/
theorem parseIPv6Loop_valid : ∀ (fuel : Nat) (s : List Char) (ip : List Nat) (e : Option Nat)
    (res : List Char × List Nat × Option Nat),
    parseIPv6Loop fuel s ip e = some res →
    ip.length % 2 = 0 → ip.length ≤ 16 → (∀ b ∈ ip, b < 256) →
    res.2.1.length % 2 = 0 ∧ res.2.1.length ≤ 16 ∧ ∀ b ∈ res.2.1, b < 256 := by
  intro fuel
  induction fuel with
  | zero =>
    intro s ip e res h h2 h16 hb
    rw [parseIPv6Loop] at h
    split at h
    · exact absurd h (by simp)
    · rw [Option.some.injEq] at h
      subst h
      exact ⟨h2, h16, hb⟩
  | succ fuel ih =>
    intro s ip e res h h2 h16 hb
    rw [parseIPv6Loop] at h
    split at h
    · rw [Option.some.injEq] at h
      subst h
      exact ⟨h2, h16, hb⟩
    · next hlt =>
      have hlt16 : ip.length < 16 := by omega
      cases hp : parseHex s 0 0 with
      | none => rw [hp] at h; exact absurd h (by simp)
      | some r =>
        obtain ⟨off, acc, rest⟩ := r
        have hacc : acc ≤ 65535 := parseHex_bound s 0 0 _ hp (by omega)
        have hnew : (ip ++ [acc / 256, acc % 256]).length % 2 = 0 ∧
            (ip ++ [acc / 256, acc % 256]).length ≤ 16 ∧
            ∀ b ∈ ip ++ [acc / 256, acc % 256], b < 256 := by
          refine ⟨by simp; omega, by simp; omega, ?_⟩
          intro b hbm
          rcases List.mem_append.mp hbm with hbm | hbm
          · exact hb b hbm
          · simp only [List.mem_cons, List.mem_singleton, List.not_mem_nil, or_false] at hbm
            rcases hbm with rfl | rfl <;> omega
        rw [hp] at h
        simp only at h
        split at h
        · exact absurd h (by simp)
        · split at h
          · split at h
            · exact absurd h (by simp)
            · split at h
              · exact absurd h (by simp)
              · next hroom =>
                cases h4 : parseIPv4 s with
                | none => rw [h4] at h; exact absurd h (by simp)
                | some ip4 =>
                  rw [h4] at h
                  simp only [Option.some.injEq] at h
                  subst h
                  obtain ⟨-, hl4, -⟩ := parseIPv4_text s ip4 h4
                  have hb4 := parseIPv4_bound s ip4 h4
                  refine ⟨by simp; omega, by simp; omega, ?_⟩
                  intro b hbm
                  rcases List.mem_append.mp hbm with hbm | hbm
                  · exact hb b hbm
                  · exact hb4 b hbm
          · split at h
            · rw [Option.some.injEq] at h
              subst h
              exact hnew
            · split at h
              · exact absurd h (by simp)
              · split at h
                · exact absurd h (by simp)
                · split at h
                  · split at h
                    · exact absurd h (by simp)
                    · split at h
                      · rw [Option.some.injEq] at h
                        subst h
                        exact hnew
                      · exact ih _ _ _ res h hnew.1 hnew.2.1 hnew.2.2
                  · exact ih _ _ _ res h hnew.1 hnew.2.1 hnew.2.2

/-- What the IPv6 parser accepts is an address of 16 bytes. -/
theorem parseIPv6_valid (s : List Char) (ip : List Nat) (h : parseIPv6 s = some ip) :
    ip.length = 16 ∧ ∀ b ∈ ip, b < 256 := by
  rw [parseIPv6_steps] at h
  split at h
  · exact absurd h (by simp)
  · split at h
    · rw [Option.some.injEq] at h
      subst h
      refine ⟨by simp, ?_⟩
      intro b hbm
      have := List.eq_of_mem_replicate hbm
      omega
    · cases hl : parseIPv6Loop 8 (ellipsisStart s).1 [] (ellipsisStart s).2 with
      | none => rw [hl] at h; exact absurd h (by simp [ellipsisFill])
      | some res =>
        obtain ⟨rest, ip1, el⟩ := res
        obtain ⟨h2, h16, hb⟩ := parseIPv6Loop_valid 8 _ [] _ _ hl (by simp) (by simp) (by simp)
        simp only at h2 h16 hb
        rw [hl] at h
        unfold ellipsisFill at h
        simp only at h
        split at h
        · exact absurd h (by simp)
        · split at h
          · cases el with
            | none => exact absurd h (by simp)
            | some k =>
              simp only [Option.some.injEq] at h
              subst h
              refine ⟨?_, ?_⟩
              · simp only [List.length_append, List.length_take, List.length_drop,
                  List.length_replicate]
                omega
              · intro b hbm
                simp only [List.mem_append] at hbm
                rcases hbm with (hbm | hbm) | hbm
                · exact hb b (List.mem_of_mem_take hbm)
                · have := List.eq_of_mem_replicate hbm
                  omega
                · exact hb b (List.mem_of_mem_drop hbm)
          · split at h
            · exact absurd h (by simp)
            · rw [Option.some.injEq] at h
              subst h
              exact ⟨by omega, hb⟩

/-- What `net.ParseIP` accepts is an address of 16 bytes. -/
theorem ParseIP_valid (s : String) (ip : IP) (h : ParseIP s = some ip) :
    ip.length = 16 ∧ ∀ b ∈ ip, b < 256 := by
  unfold ParseIP at h
  split at h
  · cases h4 : parseIPv4 s.data with
    | none => rw [h4] at h; exact absurd h (by simp)
    | some p4 =>
      rw [h4] at h
      simp only [Option.map_some', Option.some.injEq] at h
      subst h
      obtain ⟨-, hl4, -⟩ := parseIPv4_text s.data p4 h4
      have hb4 := parseIPv4_bound s.data p4 h4
      refine ⟨by simp [hl4], ?_⟩
      intro b hbm
      rcases List.mem_append.mp hbm with hbm | hbm
      · simp only [List.mem_cons, List.mem_singleton, List.not_mem_nil, or_false] at hbm
        rcases hbm with h | h | h | h | h | h | h | h | h | h | h | h <;> omega
      · exact hb4 b hbm
  · exact parseIPv6_valid s.data ip h
  · exact absurd h (by simp)

/-! ## Line breaks in printed numbers -/

/-- No digit character is a line break. -/
theorem digitChar_ne_newline (d : Nat) : Nat.digitChar d ≠ '\n' := by
  by_cases h : d < 16
  · interval_cases d <;> decide
  · unfold Nat.digitChar
    repeat rw [if_neg (by omega)]
    decide

/-- The digit loop of `Nat.repr` adds no line break. -/
theorem toDigitsCore_no_newline (b : Nat) : ∀ (fuel n : Nat) (ds : List Char),
    '\n' ∉ ds → '\n' ∉ Nat.toDigitsCore b fuel n ds := by
  intro fuel
  induction fuel with
  | zero => intro n ds h; simpa [Nat.toDigitsCore] using h
  | succ fuel ih =>
    intro n ds h
    have hd : '\n' ∉ Nat.digitChar (n % b) :: ds := by
      intro hm
      rcases List.mem_cons.mp hm with h1 | h1
      · exact digitChar_ne_newline _ h1.symm
      · exact h h1
    rw [Nat.toDigitsCore]
    split
    · exact hd
    · exact ih _ _ hd

/-- A natural number in decimal holds no line break. -/
theorem nat_repr_no_newline (n : Nat) : '\n' ∉ (Nat.repr n).data := by
  unfold Nat.repr Nat.toDigits
  exact toDigitsCore_no_newline 10 _ _ _ (by simp)

/-- An integer in decimal holds no line break. -/
theorem int_toString_no_newline (n : Int) : '\n' ∉ (toString n).data := by
  cases n with
  | ofNat m => exact nat_repr_no_newline m
  | negSucc m =>
    show '\n' ∉ ("-" ++ Nat.repr (m + 1)).data
    rw [String.data_append]
    intro h
    rcases List.mem_append.mp h with h1 | h1
    · revert h1; decide
    · exact nat_repr_no_newline _ h1

/-- No hexadecimal digit is a line break. -/
theorem hexDigit_ne_newline (n : Nat) (h : n < 16) : hexDigit n ≠ '\n' := by
  interval_cases n <;> decide

/-- The fraction digits of a duration add no line break. -/
theorem fmtFrac_no_newline : ∀ (prec v : Nat) (pr : Bool) (buf : List Char),
    '\n' ∉ buf → '\n' ∉ (fmtFrac prec v pr buf).1 := by
  intro prec
  induction prec with
  | zero =>
    intro v pr buf h
    unfold fmtFrac
    split
    · intro hm
      rcases List.mem_cons.mp hm with h1 | h1
      · revert h1; decide
      · exact h h1
    · exact h
  | succ prec ih =>
    intro v pr buf h
    unfold fmtFrac
    apply ih
    split
    · intro hm
      rcases List.mem_cons.mp hm with h1 | h1
      · exact hexDigit_ne_newline (v % 10) (by omega) h1.symm
      · exact h h1
    · exact h

/-- The text of an unsigned duration holds no line break. -/
theorem formatUnsigned_no_newline (u : Nat) : '\n' ∉ formatUnsigned u := by
  have hI : ∀ v, '\n' ∉ fmtInt v := fun v => nat_repr_no_newline v
  have hF : ∀ prec (buf : List Char), '\n' ∉ buf → '\n' ∉ (fmtFrac prec u false buf).1 :=
    fun prec buf hb => fmtFrac_no_newline prec u false buf hb
  have happ : ∀ (xs ys : List Char), '\n' ∉ xs → '\n' ∉ ys → '\n' ∉ xs ++ ys := by
    intro xs ys hx hy hm
    rcases List.mem_append.mp hm with h | h
    · exact hx h
    · exact hy h
  have hcons : ∀ (c : Char) (ys : List Char), c ≠ '\n' → '\n' ∉ ys → '\n' ∉ c :: ys := by
    intro c ys hc hy hm
    rcases List.mem_cons.mp hm with h | h
    · exact hc h.symm
    · exact hy h
  unfold formatUnsigned
  split
  · split
    · decide
    · split
      · exact happ _ _ (hI _) (by decide)
      · split
        · exact happ _ _ (hI _) (hF _ _ (by decide))
        · exact happ _ _ (hI _) (hF _ _ (by decide))
  · simp only
    have htail : '\n' ∉ fmtInt ((fmtFrac 9 u false ['s']).2 % 60) ++ (fmtFrac 9 u false ['s']).1 :=
      happ _ _ (hI _) (hF _ _ (by decide))
    split
    · split
      · exact happ _ _ (hI _) (hcons _ _ (by decide) (happ _ _ (hI _) (hcons _ _ (by decide) htail)))
      · exact happ _ _ (hI _) (hcons _ _ (by decide) htail)
    · exact htail

/-- The text of a duration holds no line break. -/
theorem durationString_no_newline (d : Int) : '\n' ∉ (durationString d).data := by
  unfold durationString
  split
  · intro hm
    rcases List.mem_cons.mp hm with h | h
    · revert h; decide
    · exact formatUnsigned_no_newline _ h
  · exact formatUnsigned_no_newline _

/-! ## The claims about the loop -/

/-- The record of an iteration, rebuilt from its parts. -/
theorem record_eta (p : PrettyRsp) (tgt : String) (j : Nat) (h1 : p.Address = tgt)
    (h2 : p.Seq = j + 1) : ({ Response := p.Response, Address := tgt, Seq := j + 1 } : PrettyRsp) = p := by
  cases p
  simp only at h1 h2
  subst h1 h2
  rfl

/-- What follows a record in a trace of `main`. -/
theorem after_record (env : Env) (a : args) (pre post : List Event) (p : PrettyRsp)
    (line : String) (h : (main env a).1 = pre ++ Event.record p line :: post) :
    ∃ (m j : Nat), j + (m + 1) = a.Count.toNat ∧ p.Seq = j + 1 ∧
      post = if p.Response.Stratum = 1 then []
        else if ParseIP p.Response.ReferenceString = none then
          [Event.diag ("error from " ++ p.Response.ReferenceString ++ ":invalid ip address\n")]
        else probeLoop env a.Timeout parsedTemplate m (j + 1) p.Response.ReferenceString := by
  obtain ⟨m, j, tgt, hj, hq, hx, h1, h2, hloop⟩ := main_record_split env a pre post p line h
  refine ⟨m, j, hj, h2, ?_⟩
  have hx1 : Execute env j parsedTemplate
      { Response := p.Response, Address := tgt, Seq := j + 1 } = .ok line := by
    rw [record_eta p tgt j h1 h2]; exact hx
  rw [probeLoop_step env a.Timeout parsedTemplate m j tgt p.Response line hq hx1] at hloop
  simp only [List.cons.injEq, true_and] at hloop
  exact hloop.2.symm

/-- C1: for every `N` (in particular `N > 0`), when all `N = Count` queries
and formattings succeed, no reply has
stratum 1 and every reference string is a literal IP (`Chain` over the `N`
replies `rs`), the run emits exactly `N` records, the replies in order, and
the record number `i` carries the sequence number `i`: the sequence numbers
are `1, 2, ..., N`, whatever the targets are. No diagnostic is emitted. -/
theorem main_emits_count_records (env : Env) (a : args) (ev : List Event) (raddr : IP)
    (rs : List Response)
    (hres : resolveToIP env a.Address a.IPv6 = (ev, .ok raddr))
    (hlen : (rs.length : Int) = a.Count)
    (hchain : Chain env a.Timeout parsedTemplate 0 (startAddr a raddr) rs) :
    (records (main env a).1).length = a.Count.toNat ∧
    (records (main env a).1).map (fun p => p.Seq) =
      (List.range a.Count.toNat).map (fun k => ((k + 1 : Nat) : Int)) ∧
    (records (main env a).1).map (fun p => p.Response) = rs ∧
    diags (main env a).1 = [] := by
  have hcount : a.Count.toNat = rs.length := by omega
  obtain ⟨tr, htr, hrec, hdiag, -, -⟩ :=
    chain_trace env a.Timeout parsedTemplate rs 0 (startAddr a raddr) 0 hchain
  have hev : records ev = [] ∧ diags ev = [] := by
    rcases resolveToIP_events env _ _ ev _ hres with h | ⟨network, h⟩ <;> subst h <;>
      exact ⟨rfl, rfl⟩
  have htrace : (main env a).1 = ev ++ tr := by
    rw [main_ok env a ev raddr hres, hcount]
    simp only [Nat.add_zero] at htr
    rw [htr]
    simp [probeLoop]
  rw [htrace, records_append, diags_append, hev.1, hev.2, hrec, hdiag, hcount]
  refine ⟨by simp [chainRecords_length], ?_, by simp [chainRecords_response], rfl⟩
  rw [List.nil_append, chainRecords_seq]
  apply List.map_congr_left
  intro k _
  simp

/-- C2: a record of a reply of stratum 1 is the last event of the run: no
query, no record and no diagnostic follows it, whatever its reference string is
and however many iterations are left. -/
theorem stratum_one_record_is_last (env : Env) (a : args) (pre post : List Event)
    (p : PrettyRsp) (line : String)
    (h : (main env a).1 = pre ++ Event.record p line :: post)
    (hs : p.Response.Stratum = 1) :
    post = [] := by
  obtain ⟨m, j, -, -, hpost⟩ := after_record env a pre post p line h
  rw [hpost, if_pos hs]

/-- C3: after the record number `k < Count` of a reply whose stratum is not 1
(in particular above 1) and whose reference string `r` is a literal IP, the
next event is the query of exactly `r`, and if a record follows that query its
`Address` is exactly `r` and its sequence number is `k + 1`; the port of the
command line plays no part. -/
theorem redirect_to_reference (env : Env) (a : args) (pre post : List Event)
    (p : PrettyRsp) (line : String)
    (h : (main env a).1 = pre ++ Event.record p line :: post)
    (hs : p.Response.Stratum ≠ 1)
    (hip : ParseIP p.Response.ReferenceString ≠ none)
    (hk : p.Seq < a.Count) :
    ∃ post1, post = Event.query p.Response.ReferenceString a.Timeout :: post1 ∧
      ∀ p1 line1 rest, post1 = Event.record p1 line1 :: rest →
        p1.Address = p.Response.ReferenceString ∧ p1.Seq = p.Seq + 1 := by
  obtain ⟨m, j, hj, hseq, hpost⟩ := after_record env a pre post p line h
  rw [if_neg hs, if_neg hip] at hpost
  have hm : m ≠ 0 := by
    intro h0
    subst h0
    omega
  obtain ⟨m1, rfl⟩ := Nat.exists_eq_succ_of_ne_zero hm
  rw [Nat.succ_eq_add_one, probeLoop_succ] at hpost
  refine ⟨_, hpost, ?_⟩
  intro p1 line1 rest hp1
  cases hq : env.QueryWithOptions (j + 1) p.Response.ReferenceString a.Timeout with
  | error err => rw [hq] at hp1; simp at hp1
  | ok rsp =>
    rw [hq] at hp1
    cases hx : Execute env (j + 1) parsedTemplate
        { Response := rsp, Address := p.Response.ReferenceString, Seq := ((j + 1 : Nat) : Int) + 1 } with
    | error err => simp only [hx] at hp1; simp at hp1
    | ok line0 =>
      simp only [hx, List.cons.injEq, Event.record.injEq] at hp1
      obtain ⟨⟨hp, -⟩, -⟩ := hp1
      subst hp
      refine ⟨rfl, ?_⟩
      show ((j + 1 : Nat) : Int) + 1 = p.Seq + 1
      rw [hseq]
      push_cast
      ring

/-- C4: after the record of a reply whose stratum is not 1 (in particular
above 1) and whose reference string is not a literal IP, the run emits exactly
one diagnostic, the invalid-address one, and ends: no lookup, no query and no
record follow. -/
theorem invalid_reference_stops (env : Env) (a : args) (pre post : List Event)
    (p : PrettyRsp) (line : String)
    (h : (main env a).1 = pre ++ Event.record p line :: post)
    (hs : p.Response.Stratum ≠ 1)
    (hip : ParseIP p.Response.ReferenceString = none) :
    post = [Event.diag ("error from " ++ p.Response.ReferenceString ++ ":invalid ip address\n")] := by
  obtain ⟨m, j, -, -, hpost⟩ := after_record env a pre post p line h
  rw [hpost, if_neg hs, if_pos hip]

/-- C5, as stated, fails: with `Count = 1` and a first reply of stratum 2 whose
reference string is not a literal IP, the run makes one query and emits one
record, and then an invalid-address diagnostic derived from the reference
string. -/
theorem ping_mode_diagnostic :
    pingArgs.Count = 1 ∧
    namedRefEnv.QueryWithOptions 0 "162.159.200.1" pingArgs.Timeout =
      .ok (reply 2 "upstream.example.net") ∧
    (reply 2 "upstream.example.net").Stratum = 2 ∧
    queries (main namedRefEnv pingArgs).1 = ["162.159.200.1"] ∧
    (records (main namedRefEnv pingArgs).1).length = 1 ∧
    diags (main namedRefEnv pingArgs).1 =
      ["error from upstream.example.net:invalid ip address\n"] ∧
    stdout (main namedRefEnv pingArgs).1 =
      "OK from 162.159.200.1:seq=1 stratum=2 offset=1ms distance=2ms RTT=5ms " ++
      "ref=upstream.example.net\nerror from upstream.example.net:invalid ip address\n" :=
  ⟨by decide, rfl, rfl, by decide, by decide, by decide, by decide⟩

/-- C5, amended: with `Count = 1` and a first reply of stratum 2 that is
queried and written successfully, the run makes exactly one query and emits
exactly one record; nothing follows the record when the reference string is a
literal IP, and exactly one invalid-address diagnostic follows it when it is
not. -/
theorem ping_mode (env : Env) (a : args) (ev : List Event) (raddr : IP) (rsp : Response)
    (line : String)
    (hres : resolveToIP env a.Address a.IPv6 = (ev, .ok raddr))
    (hc : a.Count = 1)
    (hq : env.QueryWithOptions 0 (startAddr a raddr) a.Timeout = .ok rsp)
    (hx : Execute env 0 parsedTemplate
      { Response := rsp, Address := startAddr a raddr, Seq := 1 } = .ok line)
    (hs : rsp.Stratum = 2) :
    (main env a).1 =
      ev ++ Event.query (startAddr a raddr) a.Timeout ::
        Event.record { Response := rsp, Address := startAddr a raddr, Seq := 1 } line ::
          if ParseIP rsp.ReferenceString = none then
            [Event.diag ("error from " ++ rsp.ReferenceString ++ ":invalid ip address\n")]
          else [] := by
  have h1 : ¬ rsp.Stratum = 1 := by omega
  rw [main_ok env a ev raddr hres, hc]
  show ev ++ probeLoop env a.Timeout parsedTemplate (0 + 1) 0 (startAddr a raddr) = _
  rw [probeLoop_step env a.Timeout parsedTemplate 0 0 (startAddr a raddr) rsp line hq hx,
    if_neg h1]
  by_cases h2 : ParseIP rsp.ReferenceString = none
  · simp [h2]
  · simp [h2, probeLoop]

/-- C6: when the first `k - 1` iterations succeed and redirect (`Chain` over
their replies `rs`), `k ≤ Count`, and the query number `k` fails with `err`,
the trace of the run is the lookups, the `k - 1` queries and records of those
iterations, the query of the current target and one diagnostic that names that
target and the error; nothing follows. So the run has `k - 1` records, one
diagnostic and `k` queries. -/
theorem query_failure_stops (env : Env) (a : args) (ev : List Event) (raddr : IP)
    (rs : List Response) (err : String)
    (hres : resolveToIP env a.Address a.IPv6 = (ev, .ok raddr))
    (hk : (rs.length : Int) < a.Count)
    (hchain : Chain env a.Timeout parsedTemplate 0 (startAddr a raddr) rs)
    (hfail : env.QueryWithOptions rs.length (chainTarget (startAddr a raddr) rs) a.Timeout =
      .error err) :
    (∃ tr, (main env a).1 = ev ++ tr ++
        [Event.query (chainTarget (startAddr a raddr) rs) a.Timeout,
          Event.diag ("error from " ++ chainTarget (startAddr a raddr) rs ++ ":" ++ err ++ "\n")] ∧
      records tr = chainRecords 0 (startAddr a raddr) rs ∧ diags tr = [] ∧
      (queries tr).length = rs.length) ∧
    (records (main env a).1).length = rs.length ∧
    (records (main env a).1).map (fun p => p.Seq) =
      (List.range rs.length).map (fun k => ((k + 1 : Nat) : Int)) ∧
    diags (main env a).1 =
      ["error from " ++ chainTarget (startAddr a raddr) rs ++ ":" ++ err ++ "\n"] ∧
    (queries (main env a).1).length = rs.length + 1 := by
  obtain ⟨n, hn⟩ : ∃ n, a.Count.toNat = rs.length + (n + 1) := ⟨a.Count.toNat - rs.length - 1, by omega⟩
  obtain ⟨tr, htr, hrec, hdiag, -, hquer⟩ :=
    chain_trace env a.Timeout parsedTemplate rs 0 (startAddr a raddr) (n + 1) hchain
  have hev : records ev = [] ∧ diags ev = [] ∧ queries ev = [] := by
    rcases resolveToIP_events env _ _ ev _ hres with h | ⟨network, h⟩ <;> subst h <;>
      exact ⟨rfl, rfl, rfl⟩
  have htrace : (main env a).1 = ev ++ tr ++
      [Event.query (chainTarget (startAddr a raddr) rs) a.Timeout,
        Event.diag ("error from " ++ chainTarget (startAddr a raddr) rs ++ ":" ++ err ++ "\n")] := by
    rw [main_ok env a ev raddr hres, hn, htr, probeLoop_succ]
    simp only [Nat.zero_add, hfail, List.append_assoc]
  refine ⟨⟨tr, htrace, hrec, hdiag, hquer⟩, ?_, ?_, ?_, ?_⟩
  · rw [htrace]
    simp [records_append, hev.1, hrec, records, chainRecords_length]
  · rw [htrace]
    simp only [records_append, hev.1, hrec, records, List.nil_append, List.append_nil]
    rw [chainRecords_seq]
    apply List.map_congr_left
    intro k _
    simp
  · rw [htrace]
    simp [diags_append, hev.2.1, hdiag, diags]
  · rw [htrace]
    simp [queries_append, hev.2.2, hquer, queries]

/-! ## The starting target and the resolver -/

/-- C7, the code at a failing input: `tracentp -c 1 pool.ntp.org` with the
standard port 123, where `pool.ntp.org` resolves to 162.159.200.1. The first
query and the first record show `162.159.200.1`, the text of the resolved
address, and not the host `pool.ntp.org` itself. -/
theorem initial_target_is_resolved :
    resolveToIP steadyEnv pingArgs.Address pingArgs.IPv6 =
      ([Event.lookup "ip4" "pool.ntp.org"], .ok [162, 159, 200, 1]) ∧
    pingArgs.Address = "pool.ntp.org" ∧
    pingArgs.Port = 123 ∧
    queries (main steadyEnv pingArgs).1 = ["162.159.200.1"] ∧
    (records (main steadyEnv pingArgs).1).map (fun p => p.Address) = ["162.159.200.1"] ∧
    "162.159.200.1" ≠ pingArgs.Address :=
  ⟨rfl, rfl, by decide, by decide, by decide, by decide⟩

/-- C8, as stated, fails: `0:0:0:0:0:0:0:1` parses as a literal IP and
`resolveToIP` returns that address without a lookup for both values of the
flag, but the text of the result is `::1`, not the input. -/
theorem resolveToIP_text_differs :
    ParseIP "0:0:0:0:0:0:0:1" = some [0, 0, 0, 0, 0, 0, 0, 0, 0, 0, 0, 0, 0, 0, 0, 1] ∧
    resolveToIP steadyEnv "0:0:0:0:0:0:0:1" false =
      ([], .ok [0, 0, 0, 0, 0, 0, 0, 0, 0, 0, 0, 0, 0, 0, 0, 1]) ∧
    resolveToIP steadyEnv "0:0:0:0:0:0:0:1" true =
      ([], .ok [0, 0, 0, 0, 0, 0, 0, 0, 0, 0, 0, 0, 0, 0, 0, 1]) ∧
    ipString [0, 0, 0, 0, 0, 0, 0, 0, 0, 0, 0, 0, 0, 0, 0, 1] = "::1" ∧
    ipString [0, 0, 0, 0, 0, 0, 0, 0, 0, 0, 0, 0, 0, 0, 0, 1] ≠ "0:0:0:0:0:0:0:1" :=
  ⟨by decide, rfl, rfl, by decide, by decide⟩

/-- C8, amended: for every string `s` that parses as a literal IP and both
values of the flag, `resolveToIP` performs no lookup and returns the address
that `net.ParseIP` gives for `s`. The text of the result is the canonical text
of that address: it parses back to the same address. It equals `s` exactly
when `s` is itself the text of an address of 16 bytes, and in particular
whenever `s` is a dotted quad (IPv4 literal). -/
theorem resolveToIP_literal (env : Env) (s : String) (ipv6 : Bool) (ip : IP)
    (h : ParseIP s = some ip) :
    resolveToIP env s ipv6 = ([], .ok ip) ∧
    lookups (resolveToIP env s ipv6).1 = [] ∧
    ParseIP (ipString ip) = some ip ∧
    (ipString ip = s ↔
      ∃ ip0 : IP, ip0.length = 16 ∧ (∀ b ∈ ip0, b < 256) ∧ s = ipString ip0) ∧
    ∀ p4, parseIPv4 s.data = some p4 → ipString ip = s := by
  have hr : resolveToIP env s ipv6 = ([], .ok ip) := by
    unfold resolveToIP
    rw [h]
  obtain ⟨hlen, hb⟩ := ParseIP_valid s ip h
  refine ⟨hr, by rw [hr]; rfl, ParseIP_ipString ip hlen hb, ?_, ?_⟩
  · constructor
    · intro heq
      exact ⟨ip, hlen, hb, heq.symm⟩
    · rintro ⟨ip0, hlen0, hb0, hs⟩
      have h0 := ParseIP_ipString ip0 hlen0 hb0
      rw [← hs, h, Option.some.injEq] at h0
      rw [h0, hs]
  · intro p4 h4
    rw [ParseIP_dotted s p4 h4, Option.some.injEq] at h
    obtain ⟨htext, hlen4, -⟩ := parseIPv4_text s.data p4 h4
    rw [← h, ipString_mapped p4 hlen4, htext]

/-- C9, as stated, fails: a record whose validation result is empty and whose
address holds a line break is rendered in two lines. -/
theorem defaultTemplate_two_lines :
    Parse defaultTemplate = .ok parsedTemplate ∧
    (reply 2 "10.0.0.1").Validate = "" ∧
    render parsedTemplate { Response := reply 2 "10.0.0.1", Address := "a\nb", Seq := 1 } =
      .ok ("OK from a\nb:seq=1 stratum=2 offset=1ms distance=2ms RTT=5ms ref=10.0.0.1" ++
        "\n") ∧
    '\n' ∈ "OK from a\nb:seq=1 stratum=2 offset=1ms distance=2ms RTT=5ms ref=10.0.0.1".data :=
  ⟨rfl, rfl, rfl, by decide⟩

/-- C9, amended: parsing `defaultTemplate` succeeds, and rendering any record with it
succeeds and gives a text that starts with `OK` when the validation result is
empty (absent) and with the validation string otherwise, goes on with
` from `, the record's `Address`, `:seq=` and the decimal sequence number, then
the other fields, and ends with a line break. It is one line whenever the
address, the validation string and the reference string hold no line break:
then there is no line break before the final one. -/
theorem defaultTemplate_line (p : PrettyRsp) :
    ∃ tmpl body, Parse defaultTemplate = .ok tmpl ∧
      render tmpl p = .ok (body ++ "\n") ∧
      body = (if p.Response.Validate = "" then "OK" else p.Response.Validate) ++ " from " ++
          p.Address ++ ":seq=" ++ toString p.Seq ++
          (" stratum=" ++ toString (p.Response.Stratum : Int) ++
            " offset=" ++ durationString p.Response.ClockOffset ++
            " distance=" ++ durationString p.Response.RootDistance ++
            " RTT=" ++ durationString p.Response.RTT ++
            " ref=" ++ p.Response.ReferenceString) ∧
      ('\n' ∉ p.Address.data → '\n' ∉ p.Response.Validate.data →
        '\n' ∉ p.Response.ReferenceString.data → '\n' ∉ body.data) := by
  refine ⟨parsedTemplate, _, Parse_defaultTemplate, ?_, rfl, ?_⟩
  · rw [render_default]
    simp only [String.append_assoc]
  · intro hA hV hR
    have key : ∀ (x y : String), '\n' ∉ x.data → '\n' ∉ y.data → '\n' ∉ (x ++ y).data := by
      intro x y hx hy hm
      rw [String.data_append] at hm
      rcases List.mem_append.mp hm with h | h
      · exact hx h
      · exact hy h
    repeat' apply key
    all_goals first
      | assumption
      | exact int_toString_no_newline _
      | exact durationString_no_newline _
      | decide
      | (split <;> first | decide | assumption)

/-- C10, the code at a failing input: with `-6 -p 456 pool.ntp.org` the
resolver returns the IPv6 address 2606:4700:f1::1, and the first query goes to
`pool.ntp.org:456`, the raw command-line string with the port: the resolved
address is not used. -/
theorem custom_port_drops_resolution :
    resolveToIP steadyEnv sixArgs.Address sixArgs.IPv6 =
      ([Event.lookup "ip6" "pool.ntp.org"],
        .ok [38, 6, 71, 0, 0, 241, 0, 0, 0, 0, 0, 0, 0, 0, 0, 1]) ∧
    ipString [38, 6, 71, 0, 0, 241, 0, 0, 0, 0, 0, 0, 0, 0, 0, 1] = "2606:4700:f1::1" ∧
    sixArgs.Port = 456 ∧
    queries (main steadyEnv sixArgs).1 = ["pool.ntp.org:456"] ∧
    (records (main steadyEnv sixArgs).1).map (fun p => p.Address) = ["pool.ntp.org:456"] :=
  ⟨rfl, by decide, by decide, by decide, by decide⟩

/-- Witness of C1: three steady replies give three records numbered 1, 2, 3. -/
theorem main_emits_count_records_witness :
    (records (main steadyEnv threeArgs).1).length = 3 ∧
    (records (main steadyEnv threeArgs).1).map (fun p => p.Seq) = [1, 2, 3] ∧
    (records (main steadyEnv threeArgs).1).map (fun p => p.Response) =
      [reply 2 "10.0.0.1", reply 2 "10.0.0.1", reply 2 "10.0.0.1"] ∧
    diags (main steadyEnv threeArgs).1 = [] :=
  main_emits_count_records steadyEnv threeArgs [Event.lookup "ip4" "pool.ntp.org"]
    [162, 159, 200, 1] [reply 2 "10.0.0.1", reply 2 "10.0.0.1", reply 2 "10.0.0.1"]
    rfl rfl
    ⟨rfl, ⟨_, rfl⟩, by decide, by decide, rfl, ⟨_, rfl⟩, by decide, by decide,
      rfl, ⟨_, rfl⟩, by decide, by decide, trivial⟩

/-- Witness of C2: the second reply has stratum 1 and its record ends the run
of five. -/
theorem stratum_one_record_is_last_witness :
    (main rootEnv fiveArgs).1 =
      [Event.lookup "ip4" "pool.ntp.org", Event.query "162.159.200.1" 3000000000,
        Event.record { Response := reply 2 "10.0.0.1", Address := "162.159.200.1", Seq := 1 }
          "OK from 162.159.200.1:seq=1 stratum=2 offset=1ms distance=2ms RTT=5ms ref=10.0.0.1\n",
        Event.query "10.0.0.1" 3000000000] ++
      Event.record { Response := reply 1 ".GPS.", Address := "10.0.0.1", Seq := 2 }
        "OK from 10.0.0.1:seq=2 stratum=1 offset=1ms distance=2ms RTT=5ms ref=.GPS.\n" :: [] ∧
    ([] : List Event) = [] :=
  ⟨by decide,
    stratum_one_record_is_last rootEnv fiveArgs
      [Event.lookup "ip4" "pool.ntp.org", Event.query "162.159.200.1" 3000000000,
        Event.record { Response := reply 2 "10.0.0.1", Address := "162.159.200.1", Seq := 1 }
          "OK from 162.159.200.1:seq=1 stratum=2 offset=1ms distance=2ms RTT=5ms ref=10.0.0.1\n",
        Event.query "10.0.0.1" 3000000000]
      []
      { Response := reply 1 ".GPS.", Address := "10.0.0.1", Seq := 2 }
      "OK from 10.0.0.1:seq=2 stratum=1 offset=1ms distance=2ms RTT=5ms ref=.GPS.\n"
      (by decide) rfl⟩

/-- Witness of C3: started with port 456, the run queries `pool.ntp.org:456`
first and the bare `10.0.0.1` next. -/
theorem redirect_to_reference_witness :
    queries (main steadyEnv portArgs).1 = ["pool.ntp.org:456", "10.0.0.1"] ∧
    ∃ post1,
      [Event.query "10.0.0.1" 3000000000,
        Event.record { Response := reply 2 "10.0.0.1", Address := "10.0.0.1", Seq := 2 }
          "OK from 10.0.0.1:seq=2 stratum=2 offset=1ms distance=2ms RTT=5ms ref=10.0.0.1\n"] =
        Event.query (reply 2 "10.0.0.1").ReferenceString portArgs.Timeout :: post1 ∧
      ∀ p1 line1 rest, post1 = Event.record p1 line1 :: rest →
        p1.Address = (reply 2 "10.0.0.1").ReferenceString ∧ p1.Seq = 1 + 1 :=
  ⟨by decide,
    redirect_to_reference steadyEnv portArgs
      [Event.lookup "ip4" "pool.ntp.org", Event.query "pool.ntp.org:456" 3000000000]
      [Event.query "10.0.0.1" 3000000000,
        Event.record { Response := reply 2 "10.0.0.1", Address := "10.0.0.1", Seq := 2 }
          "OK from 10.0.0.1:seq=2 stratum=2 offset=1ms distance=2ms RTT=5ms ref=10.0.0.1\n"]
      { Response := reply 2 "10.0.0.1", Address := "pool.ntp.org:456", Seq := 1 }
      "OK from pool.ntp.org:456:seq=1 stratum=2 offset=1ms distance=2ms RTT=5ms ref=10.0.0.1\n"
      (by decide) (by decide) (by decide) (by decide)⟩

/-- Witness of C4: a stratum-2 reply names `upstream.example.net`; the run of
five ends with the diagnostic after the first record. -/
theorem invalid_reference_stops_witness :
    (main namedRefEnv fiveArgs).1 =
      [Event.lookup "ip4" "pool.ntp.org", Event.query "162.159.200.1" 3000000000] ++
      Event.record
        { Response := reply 2 "upstream.example.net", Address := "162.159.200.1", Seq := 1 }
        ("OK from 162.159.200.1:seq=1 stratum=2 offset=1ms distance=2ms RTT=5ms " ++
          "ref=upstream.example.net\n") ::
      [Event.diag "error from upstream.example.net:invalid ip address\n"] ∧
    [Event.diag "error from upstream.example.net:invalid ip address\n"] =
      [Event.diag ("error from " ++ (reply 2 "upstream.example.net").ReferenceString ++
        ":invalid ip address\n")] :=
  ⟨by decide,
    invalid_reference_stops namedRefEnv fiveArgs
      [Event.lookup "ip4" "pool.ntp.org", Event.query "162.159.200.1" 3000000000]
      [Event.diag "error from upstream.example.net:invalid ip address\n"]
      { Response := reply 2 "upstream.example.net", Address := "162.159.200.1", Seq := 1 }
      ("OK from 162.159.200.1:seq=1 stratum=2 offset=1ms distance=2ms RTT=5ms " ++
        "ref=upstream.example.net\n")
      (by decide) (by decide) (by decide)⟩

/-- Witness of C5 (amended): one steady reply with `Count = 1` gives one query
and one record and nothing else. -/
theorem ping_mode_witness :
    (main steadyEnv pingArgs).1 =
      [Event.lookup "ip4" "pool.ntp.org"] ++
      Event.query (startAddr pingArgs [162, 159, 200, 1]) pingArgs.Timeout ::
        Event.record
          { Response := reply 2 "10.0.0.1", Address := startAddr pingArgs [162, 159, 200, 1],
            Seq := 1 }
          "OK from 162.159.200.1:seq=1 stratum=2 offset=1ms distance=2ms RTT=5ms ref=10.0.0.1\n" ::
          if ParseIP (reply 2 "10.0.0.1").ReferenceString = none then
            [Event.diag ("error from " ++ (reply 2 "10.0.0.1").ReferenceString ++
              ":invalid ip address\n")]
          else [] :=
  ping_mode steadyEnv pingArgs [Event.lookup "ip4" "pool.ntp.org"] [162, 159, 200, 1]
    (reply 2 "10.0.0.1")
    "OK from 162.159.200.1:seq=1 stratum=2 offset=1ms distance=2ms RTT=5ms ref=10.0.0.1\n"
    rfl rfl rfl rfl rfl

/-- Witness of C6: `Count = 5` and the third query fails: two records, one
diagnostic, three queries. -/
theorem query_failure_stops_witness :
    fiveArgs.Count = 5 ∧
    (records (main timeoutEnv fiveArgs).1).length = 2 ∧
    (records (main timeoutEnv fiveArgs).1).map (fun p => p.Seq) = [1, 2] ∧
    diags (main timeoutEnv fiveArgs).1 = ["error from 10.0.0.1:i/o timeout\n"] ∧
    (queries (main timeoutEnv fiveArgs).1).length = 3 :=
  ⟨rfl,
    (query_failure_stops timeoutEnv fiveArgs [Event.lookup "ip4" "pool.ntp.org"]
      [162, 159, 200, 1] [reply 3 "10.0.0.2", reply 2 "10.0.0.1"] "i/o timeout"
      rfl (by decide)
      ⟨rfl, ⟨_, rfl⟩, by decide, by decide, rfl, ⟨_, rfl⟩, by decide, by decide, trivial⟩
      rfl).2⟩

/-- Witness of C8 (amended): `192.168.1.1` with the IPv6 preference, and the
canonical IPv6 literals `::1` and `2606:4700:f1::1`. -/
theorem resolveToIP_literal_witness :
    resolveToIP steadyEnv "192.168.1.1" true =
      ([], .ok [0, 0, 0, 0, 0, 0, 0, 0, 0, 0, 255, 255, 192, 168, 1, 1]) ∧
    ipString [0, 0, 0, 0, 0, 0, 0, 0, 0, 0, 255, 255, 192, 168, 1, 1] = "192.168.1.1" ∧
    ipString [0, 0, 0, 0, 0, 0, 0, 0, 0, 0, 0, 0, 0, 0, 0, 1] = "::1" ∧
    ParseIP (ipString [38, 6, 71, 0, 0, 241, 0, 0, 0, 0, 0, 0, 0, 0, 0, 1]) =
      some [38, 6, 71, 0, 0, 241, 0, 0, 0, 0, 0, 0, 0, 0, 0, 1] ∧
    ipString [38, 6, 71, 0, 0, 241, 0, 0, 0, 0, 0, 0, 0, 0, 0, 1] = "2606:4700:f1::1" :=
  ⟨(resolveToIP_literal steadyEnv "192.168.1.1" true
      [0, 0, 0, 0, 0, 0, 0, 0, 0, 0, 255, 255, 192, 168, 1, 1] (by decide)).1,
    (resolveToIP_literal steadyEnv "192.168.1.1" true
      [0, 0, 0, 0, 0, 0, 0, 0, 0, 0, 255, 255, 192, 168, 1, 1] (by decide)).2.2.2.2
      [192, 168, 1, 1] (by decide),
    (resolveToIP_literal steadyEnv "::1" false
      [0, 0, 0, 0, 0, 0, 0, 0, 0, 0, 0, 0, 0, 0, 0, 1] (by decide)).2.2.2.1.mpr
      ⟨[0, 0, 0, 0, 0, 0, 0, 0, 0, 0, 0, 0, 0, 0, 0, 1], by decide, by decide, by decide⟩,
    (resolveToIP_literal steadyEnv "2606:4700:f1::1" false
      [38, 6, 71, 0, 0, 241, 0, 0, 0, 0, 0, 0, 0, 0, 0, 1] (by decide)).2.2.1,
    (resolveToIP_literal steadyEnv "2606:4700:f1::1" false
      [38, 6, 71, 0, 0, 241, 0, 0, 0, 0, 0, 0, 0, 0, 0, 1] (by decide)).2.2.2.1.mpr
      ⟨[38, 6, 71, 0, 0, 241, 0, 0, 0, 0, 0, 0, 0, 0, 0, 1], by decide, by decide, by decide⟩⟩

end Tracentp
